import Mathlib

/- Batteries marks the rational arithmetic operations `@[irreducible]`, which
blocks `decide` on concrete runs of the scheduler; restore the default
reducibility for this file so concrete evaluations reduce. -/
attribute [local semireducible] Rat.add Rat.mul Rat.inv Rat.sub

/-!
Verification of the rehearsal scheduler (`src/scheduler.py`).

Shallow-embedding conventions:
* Python dicts are modelled as association lists with first-key-wins lookup
  (`dlookup`) and update-in-place-or-append assignment (`dinsert`), which is
  exactly dict insertion-order semantics when the list has no duplicate keys
  (dicts never do).
* Slot values and the interval are rationals: every slot value the program
  manipulates is a small dyadic rational, on which Python float arithmetic
  is exact.
* A Python expression that may raise (KeyError, IndexError) is modelled with
  `Option`: `none` is an uncaught exception.  `try:/except:` blocks turn
  `none` back into a value, exactly where the source does.
* Scene lengths are counts of timeblocks, hence naturals.
* The occupancy array holds only the values 0 and 1 in the source
  (initialised to 0, written 1 on claim and 0 on undo, tested with `== 1`),
  so it is modelled as a `List Bool` with `true` for 1.
-/

/-- First-key-wins lookup in an association list: the behaviour of `d[k]`
on a Python dict, with `none` for a raised `KeyError`. -/
def dlookup {α β : Type} [DecidableEq α] : List (α × β) → α → Option β
  | [], _ => none
  | (k', v') :: rest, k => if k' = k then some v' else dlookup rest k

/-- Dict assignment `d[k] = v`: update the (first) existing entry in place,
or append a new one, preserving insertion order. -/
def dinsert {α β : Type} [DecidableEq α] : List (α × β) → α → β → List (α × β)
  | [], k, v => [(k, v)]
  | (k', v') :: rest, k, v =>
      if k' = k then (k, v) :: rest else (k', v') :: dinsert rest k v

/-- An actor's conflict chart: day → (slot value → available?).  `True` means
available, as in `Actor.create_conflict_chart`. -/
abbrev ConflictChart := List (String × List (ℚ × Bool))

/-- Two-level chart lookup `chart[day][time]`, `none` when either level
raises `KeyError`. -/
def dlookup2 (chart : ConflictChart) (day : String) (t : ℚ) : Option Bool :=
  match dlookup chart day with
  | none => none
  | some inner => dlookup inner t

/-- Model of `Actor` from `scheduler.py`: a name plus the per-day availability chart. -/
structure Actor where
  name : String
  conflict_chart : ConflictChart
deriving DecidableEq

/-- Source `Actor.create_conflict_chart`: one inner dict per day of the day-time
chart, every timeblock initialised to `True` (available). -/
def Actor.create_conflict_chart (day_time_chart : List (String × List ℚ)) :
    ConflictChart :=
  day_time_chart.map fun p => (p.1, p.2.map fun t => (t, true))

/-- Source `Actor.__init__`: store the name and build the chart from the calendar's
day-time chart. -/
def Actor.create (name : String) (day_time_chart : List (String × List ℚ)) :
    Actor :=
  ⟨name, Actor.create_conflict_chart day_time_chart⟩

/-- Source `Actor.add_conflict`: `self.conflict_chart[day][time] = False`.  The
outer indexing raises `KeyError` on an unknown day (`none` here); on a known
day the inner dict assignment inserts the key when absent. -/
def Actor.add_conflict (a : Actor) (day : String) (time : ℚ) : Option Actor :=
  match dlookup a.conflict_chart day with
  | none => none
  | some inner =>
      some { a with
        conflict_chart := dinsert a.conflict_chart day (dinsert inner time false) }

/-- Source `Actor.remove_conflict`: `self.conflict_chart[day][time] = True`. -/
def Actor.remove_conflict (a : Actor) (day : String) (time : ℚ) : Option Actor :=
  match dlookup a.conflict_chart day with
  | none => none
  | some inner =>
      some { a with
        conflict_chart := dinsert a.conflict_chart day (dinsert inner time true) }

/-- Source `Actor.is_available`: walk the requested times, return `False` on the
first time whose chart entry is `False`; a missing day or time raises
(`none`).  An empty list of times returns `True` without touching the chart. -/
def Actor.is_available (a : Actor) (day : String) : List ℚ → Option Bool
  | [] => some true
  | t :: rest =>
      match dlookup2 a.conflict_chart day t with
      | none => none
      | some b => if b = false then some false else a.is_available day rest

/-- Model of `Scene` from `scheduler.py`. -/
structure Scene where
  name : String
  speaking_actors : List String
  all_actors : List String
  length : ℕ
deriving DecidableEq

/-- Source `Scene.__init__`.  In the source, `self.speaking_actors`,
`self.all_actors` and the caller's `speaking_actors` argument are one and the
same list object, which `extend` then mutates in place.  The embedding
returns, next to the scene, the value that the caller's list holds after the
call; all three coincide on the single shared value. -/
def Scene.init (name : String) (length : ℕ)
    (speaking_actors : List String) (nonspeaking_actors : List String) :
    Scene × List String :=
  let shared := speaking_actors ++ nonspeaking_actors
  ({ name := name, speaking_actors := shared, all_actors := shared,
     length := length }, shared)

/-- Model of `Calendar` from `scheduler.py`. -/
structure Calendar where
  names : List String
  day_time_chart : List (String × List ℚ)
  days : List String
  interval : ℚ
  actor_objects : List (String × Actor)
deriving DecidableEq

/-- Source `Calendar.create_actor_objects`: one fresh `Actor` per declared name. -/
def Calendar.create_actor_objects (names : List String)
    (day_time_chart : List (String × List ℚ)) : List (String × Actor) :=
  names.map fun n => (n, Actor.create n day_time_chart)

/-- Source `Calendar.__init__` without the optional conflict list (conflicts are
applied afterwards through `Calendar.add_conflict`, the same loop the
constructor runs). -/
def Calendar.create (names : List String)
    (day_time_chart : List (String × List ℚ)) (days : List String)
    (interval : ℚ) : Calendar :=
  { names := names, day_time_chart := day_time_chart, days := days,
    interval := interval,
    actor_objects := Calendar.create_actor_objects names day_time_chart }

/-- A conflict `[name, day, times]`. -/
abbrev Conflict := String × String × List ℚ

/-- The loop body of `Calendar.add_conflict`: for each time, look the actor
up (`KeyError` on an unknown name) and apply `Actor.add_conflict`.  The
mutation of the shared `Actor` object is modelled by writing the updated
actor back into `actor_objects`. -/
def addConflictTimes (name day : String) : List ℚ → Calendar → Option Calendar
  | [], c => some c
  | t :: rest, c =>
      match dlookup c.actor_objects name with
      | none => none
      | some a =>
          match a.add_conflict day t with
          | none => none
          | some a' =>
              addConflictTimes name day rest
                { c with actor_objects := dinsert c.actor_objects name a' }

/-- Source `Calendar.add_conflict`. -/
def Calendar.add_conflict (c : Calendar) (conflict : Conflict) :
    Option Calendar :=
  addConflictTimes conflict.1 conflict.2.1 conflict.2.2 c

/-- The loop body of `Calendar.remove_conflict`. -/
def removeConflictTimes (name day : String) :
    List ℚ → Calendar → Option Calendar
  | [], c => some c
  | t :: rest, c =>
      match dlookup c.actor_objects name with
      | none => none
      | some a =>
          match a.remove_conflict day t with
          | none => none
          | some a' =>
              removeConflictTimes name day rest
                { c with actor_objects := dinsert c.actor_objects name a' }

/-- Source `Calendar.remove_conflict`. -/
def Calendar.remove_conflict (c : Calendar) (conflict : Conflict) :
    Option Calendar :=
  removeConflictTimes conflict.1 conflict.2.1 conflict.2.2 c

/-- Source `Calendar.is_available`: walk the names, returning `False` on the first
actor who is not available; an unknown name raises (`none`), as does a raise
inside `Actor.is_available`. -/
def Calendar.is_available (c : Calendar) :
    List String → String → List ℚ → Option Bool
  | [], _, _ => some true
  | n :: rest, day, times =>
      match dlookup c.actor_objects n with
      | none => none
      | some a =>
          match a.is_available day times with
          | none => none
          | some b => if b then c.is_available rest day times else some false

/-- Model of `Scheduler` from `scheduler.py`: a calendar plus the scene registry. -/
structure Scheduler where
  calendar : Calendar
  scenes : List (String × Scene)
deriving DecidableEq

/-- Source `Scheduler.generate_times`: the end-exclusive slot sequence
`time_start, time_start + interval, ..., time_end - interval`.  Python's
`int()` truncates toward zero; it agrees with `Int.floor` followed by `toNat`
on every argument (for a negative quotient both yield an empty range). -/
def Scheduler.generate_times (s : Scheduler) (time_start time_end : ℚ) :
    List ℚ :=
  let interval := s.calendar.interval
  let num_timeblocks := (⌊(time_end - time_start) / interval⌋).toNat
  (List.range num_timeblocks).map fun i : ℕ => time_start + interval * (i : ℚ)

/-- Source `Scheduler.scene_works`.  The registry lookup `self.scenes[scene]` sits
outside the `try:` and raises on an unregistered scene (`none`); the
availability query sits inside it, so a raise there yields `False`. -/
def Scheduler.scene_works (s : Scheduler) (scene day : String)
    (time_start time_end : ℚ) : Option Bool :=
  match dlookup s.scenes scene with
  | none => none
  | some sc =>
      let num_timeblocks := sc.length
      let interval := s.calendar.interval
      let scene_time_end := time_start + (num_timeblocks : ℚ) * interval
      if scene_time_end > time_end then some false
      else
        let times := s.generate_times time_start scene_time_end
        match s.calendar.is_available sc.all_actors day times with
        | none => some false
        | some b => some b

/-- Source `Scheduler.schedule_is_valid`: `scene_works` with its default window
bound `time_end = 9000000`. -/
def Scheduler.schedule_is_valid (s : Scheduler) (scene day : String)
    (time_start : ℚ) : Option Bool :=
  s.scene_works scene day time_start 9000000

/-- A value of the `current_arrangement` dict: either a `[day, time]`
timeblock or the empty string written on backtracking. -/
inductive ArrVal where
  | tb : String → ℚ → ArrVal
  | blank : ArrVal
deriving DecidableEq

/-- The `final_arrangement` / `current_arrangement` dict. -/
abbrev Arrangement := List (String × ArrVal)

/-- The occupancy test of `schedule_solve`: positions `i .. i+req-1` must all
exist (`IndexError` is caught and counts as not open) and be unclaimed. -/
def scheduleOpen (sched : List Bool) (i req : ℕ) : Bool :=
  (List.range' i req).all fun j =>
    match sched.get? j with
    | some v => !v
    | none => false

/-- Loop `for j in range(i, i+req): schedule[j] = v` (every executed write is in
range in the source, since it is guarded by the occupancy test). -/
def markRange : List Bool → ℕ → ℕ → Bool → List Bool
  | sched, _, 0, _ => sched
  | sched, i, req + 1, v => markRange (sched.set i v) (i + 1) req v

/-- The candidate loop of `schedule_solve` (`for i in range(0, len(schedule))`),
abstracted over the recursive call `recur` on the remaining scenes.  Each
iteration reads `timeblocks[i]` (a raise propagates), tests occupancy and
`schedule_is_valid`, claims the range and records the arrangement entry, and
on failure of the recursion restores the range and blanks the entry. -/
def tryPlaces (s : Scheduler) (tbs : List (String × ℚ)) (sceneName : String)
    (req : ℕ)
    (recur : List Bool → Arrangement → Option (Bool × List Bool × Arrangement)) :
    List ℕ → List Bool → Arrangement → Option (Bool × List Bool × Arrangement)
  | [], sched, arr => some (false, sched, arr)
  | i :: rest, sched, arr =>
      match tbs.get? i with
      | none => none
      | some dayTime =>
          if scheduleOpen sched i req then
            match s.schedule_is_valid sceneName dayTime.1 dayTime.2 with
            | none => none
            | some false => tryPlaces s tbs sceneName req recur rest sched arr
            | some true =>
                let sched1 := markRange sched i req true
                let arr1 := dinsert arr sceneName (ArrVal.tb dayTime.1 dayTime.2)
                match recur sched1 arr1 with
                | none => none
                | some (true, sched2, arr2) => some (true, sched2, arr2)
                | some (false, sched2, arr2) =>
                    tryPlaces s tbs sceneName req recur rest
                      (markRange sched2 i req false)
                      (dinsert arr2 sceneName ArrVal.blank)
          else tryPlaces s tbs sceneName req recur rest sched arr

/-- Source `Scheduler.schedule_solve`.  The source recursion advances `scene_idx`
through `scene_list`; here the remaining suffix of the scene list is the
recursion argument, and a fuel counter (the recursion depth, `scenes.length`
at the entry point, so it never runs out) keeps the recursion structural.
The registry lookup `self.scenes[scene]` raises on an unregistered scene. -/
def Scheduler.schedule_solve (s : Scheduler) (tbs : List (String × ℚ)) :
    ℕ → List String → List Bool → Arrangement →
    Option (Bool × List Bool × Arrangement)
  | _, [], sched, arr => some (true, sched, arr)
  | 0, _ :: _, _, _ => none
  | fuel + 1, scene :: rest, sched, arr =>
      match dlookup s.scenes scene with
      | none => none
      | some sc =>
          tryPlaces s tbs scene sc.length
            (fun sched' arr' => s.schedule_solve tbs fuel rest sched' arr')
            (List.range sched.length) sched arr

/-- The timeblock linearisation built at the top of `Scheduler.schedule`:
`[day, block]` for every block of every requested day, in order.  An unknown
day raises (`none`). -/
def buildTimeblocks (cal : Calendar) : List String → Option (List (String × ℚ))
  | [] => some []
  | d :: rest =>
      match dlookup cal.day_time_chart d with
      | none => none
      | some blocks =>
          match buildTimeblocks cal rest with
          | none => none
          | some tbs => some (blocks.map (fun b => (d, b)) ++ tbs)

/-- Source `Scheduler.schedule`.  `some (some arr)` is a returned arrangement,
`some none` is the returned `None` ("no schedule exists"), and `none` is an
uncaught exception. -/
def Scheduler.schedule (s : Scheduler) (days scenes : List String) :
    Option (Option Arrangement) :=
  match buildTimeblocks s.calendar days with
  | none => none
  | some timeblocks =>
      let schedule0 : List Bool := List.replicate timeblocks.length false
      match s.schedule_solve timeblocks scenes.length scenes schedule0 [] with
      | none => none
      | some (true, _, arr) => some (some arr)
      | some (false, _, _) => some none

/-- Python mutates the single `Actor` object that `calendar.actor_objects`
holds; the embedding models that by writing the updated actor value back
into the scheduler's calendar. -/
def Scheduler.withActor (s : Scheduler) (name : String) (a : Actor) :
    Scheduler :=
  { s with calendar :=
      { s.calendar with
        actor_objects := dinsert s.calendar.actor_objects name a } }

/-- State-threaded transcription of `Scheduler.scene_works`: every statement
of the source is a read, so every branch returns the scheduler it was given.
Pairing the result with the post-state makes the absence of mutation a
provable statement rather than a modelling convention. -/
def Scheduler.scene_works_st (s : Scheduler) (scene day : String)
    (time_start time_end : ℚ) : Option Bool × Scheduler :=
  match dlookup s.scenes scene with
  | none => (none, s)
  | some sc =>
      let scene_time_end := time_start + (sc.length : ℚ) * s.calendar.interval
      if scene_time_end > time_end then (some false, s)
      else
        let times := s.generate_times time_start scene_time_end
        match s.calendar.is_available sc.all_actors day times with
        | none => (some false, s)
        | some b => (some b, s)

/-- Decidable check that a slot list ascends in steps of exactly `interval`
(the grid invariant that the spec declares for every day). -/
def arithSlotsB : List ℚ → ℚ → Bool
  | [], _ => true
  | [_], _ => true
  | a :: b :: rest, i => decide (b = a + i) && arithSlotsB (b :: rest) i

/-- Decidable check that every requested day exists in the day-time chart
and has a slot list ascending in steps of the calendar's interval. -/
def checkGrids (cal : Calendar) (days : List String) : Bool :=
  days.all fun d =>
    match dlookup cal.day_time_chart d with
    | some slots => arithSlotsB slots cal.interval
    | none => false

/-- Decidable check that an inner chart dict has exactly the slots of `slots`
as keys (the shape `Actor.create_conflict_chart` produces, preserved by
conflict toggles on known slots). -/
def innerKeysMatch (inner : List (ℚ × Bool)) (slots : List ℚ) : Bool :=
  slots.all (fun t => (dlookup inner t).isSome) &&
    inner.all (fun p => decide (p.1 ∈ slots))

/-- Every actor a scene requires exists in the calendar and has, for `day`,
a chart whose keys are exactly the day's slots. -/
def SceneChartsMatch (s : Scheduler) (sc : Scene) (day : String)
    (slots : List ℚ) : Prop :=
  ∀ n ∈ sc.all_actors, ∃ a, dlookup s.calendar.actor_objects n = some a ∧
    ∃ inner, dlookup a.conflict_chart day = some inner ∧
      innerKeysMatch inner slots = true

/-- A successfully placed scene: its registry entry, its timeblock, a true
feasibility check there, its arrangement entry, and its claimed occupancy
range free in the occupancy array `sched`. -/
def PlacedOK (s : Scheduler) (tbs : List (String × ℚ)) (sched : List Bool)
    (arr' : Arrangement) (scene : String) (p : ℕ) : Prop :=
  ∃ sc day t, dlookup s.scenes scene = some sc ∧ tbs.get? p = some (day, t) ∧
    s.scene_works scene day t 9000000 = some true ∧
    dlookup arr' scene = some (ArrVal.tb day t) ∧
    ∀ j, p ≤ j → j < p + sc.length → sched.get? j = some false

/-- Pairwise disjointness of the occupancy ranges assigned by `pos` to the
scenes of `l`. -/
def RangesDisjoint (s : Scheduler) (pos : String → ℕ) (l : List String) :
    Prop :=
  ∀ a ∈ l, ∀ b ∈ l, a ≠ b → ∀ sca scb,
    dlookup s.scenes a = some sca → dlookup s.scenes b = some scb →
    ∀ j, ¬((pos a ≤ j ∧ j < pos a + sca.length) ∧
           (pos b ≤ j ∧ j < pos b + scb.length))

/-- Postcondition of a successful `schedule_solve` run on the scene suffix
`l`: entries outside `l` are untouched, and each scene of `l` is placed at a
position that was free in the incoming occupancy array, with pairwise
disjoint ranges. -/
def SolvePost (s : Scheduler) (tbs : List (String × ℚ)) (sched : List Bool)
    (arr arr' : Arrangement) (l : List String) : Prop :=
  (∀ name, name ∉ l → dlookup arr' name = dlookup arr name) ∧
  ∃ pos : String → ℕ, (∀ x ∈ l, PlacedOK s tbs sched arr' x (pos x)) ∧
    RangesDisjoint s pos l

/-! Concrete test states used by the witnesses and counterexamples. -/

/-- Day-time chart of the C4 scenario: one day, slots 1, 1.5, 2, 2.5. -/
def c4Chart : List (String × List ℚ) := [("D1", [1, 3/2, 2, 5/2])]

/-- Calendar of the C4 scenario: one participant, interval 0.5, no
conflicts. -/
def c4Cal : Calendar := Calendar.create ["A"] c4Chart ["D1"] (1/2)

/-- Scene of the C4 scenario: requires "A", duration 2 timeblocks. -/
def c4Scene : Scene := (Scene.init "task" 2 ["A"] []).1

/-- Scheduler of the C4 scenario. -/
def c4Sched : Scheduler := ⟨c4Cal, [("task", c4Scene)]⟩

/-- Scheduler for the C1 witness: one actor, one day with four slots, two
scenes of two timeblocks each. -/
def c1Sched : Scheduler :=
  ⟨Calendar.create ["A"] [("D1", [1, 3/2, 2, 5/2])] ["D1"] (1/2),
   [("S1", (Scene.init "S1" 2 ["A"] []).1), ("S2", (Scene.init "S2" 2 ["A"] []).1)]⟩

/-- The arrangement the C1 witness run returns. -/
def c1Arr : Arrangement := [("S1", ArrVal.tb "D1" 1), ("S2", ArrVal.tb "D1" 2)]

/-- Scheduler for the C2 counterexample: a scene with an empty participant
list and a duration that overruns the day's two slots. -/
def cx2Sched : Scheduler :=
  ⟨Calendar.create [] [("D1", [1, 3/2])] ["D1"] (1/2),
   [("S", (Scene.init "S" 3 [] []).1)]⟩

/-- Scheduler for the C2 amended witness: one actor, two slots, a
two-timeblock scene. -/
def w2Sched : Scheduler :=
  ⟨Calendar.create ["A"] [("D1", [1, 3/2])] ["D1"] (1/2),
   [("S", (Scene.init "S" 2 ["A"] []).1)]⟩

/-- Scheduler for the C3 counterexample: an actor-less scene three
timeblocks long over two days of two slots each. -/
def cx3Sched : Scheduler :=
  ⟨Calendar.create [] [("D1", [1, 3/2]), ("D2", [1, 3/2])] ["D1", "D2"] (1/2),
   [("S", (Scene.init "S" 3 [] []).1)]⟩

/-- Scheduler for the C3 amended witness: a three-timeblock scene requiring
"A" on a two-slot day. -/
def w3Sched : Scheduler :=
  ⟨Calendar.create ["A"] [("D1", [1, 3/2])] ["D1"] (1/2),
   [("S", (Scene.init "S" 3 ["A"] []).1)]⟩

/-- Actor for the C5 theorems: fresh ledger over one day with slots 1, 1.5. -/
def c5Actor : Actor := Actor.create "A" [("D1", [1, 3/2])]

/-- Actor "A" of the C6 counterexample: knows slots 1 and 2 on "D1", with 2
marked unavailable (the shape `add_conflict` produces after inserting an
off-grid slot). -/
def c6ActorA : Actor := ⟨"A", [("D1", [(1, true), (2, false)])]⟩

/-- Actor "B" of the C6 counterexample: only knows slot 1 on "D1". -/
def c6ActorB : Actor := ⟨"B", [("D1", [(1, true)])]⟩

/-- Calendar of the C6 counterexample. -/
def c6Cal : Calendar :=
  ⟨["A", "B"], [("D1", [1])], ["D1"], 1/2,
   [("A", c6ActorA), ("B", c6ActorB)]⟩

/-- Calendar for the C6 amended witness: two fresh actors over one day. -/
def w6Cal : Calendar := Calendar.create ["A", "B"] [("D1", [1, 3/2])] ["D1"] (1/2)

/-- Scheduler for the C7 witness: one actor, two slots, a two-timeblock
scene requiring the actor. -/
def w7Sched : Scheduler :=
  ⟨Calendar.create ["A"] [("D1", [1, 3/2])] ["D1"] (1/2),
   [("S", (Scene.init "S" 2 ["A"] []).1)]⟩

/-- Calendar for the C8 witness. -/
def w8Cal : Calendar := Calendar.create ["A"] [("D1", [1, 3/2])] ["D1"] (1/2)

/-! Association-list (dict) lemmas. -/

theorem dlookup_dinsert_self {α β : Type} [DecidableEq α]
    (l : List (α × β)) (k : α) (v : β) :
    dlookup (dinsert l k v) k = some v := by
  induction l with
  | nil => simp [dinsert, dlookup]
  | cons p rest ih =>
      obtain ⟨a, b⟩ := p
      by_cases h : a = k
      · simp [dinsert, dlookup, h]
      · simp [dinsert, dlookup, h, ih]

theorem dlookup_dinsert_ne {α β : Type} [DecidableEq α]
    (l : List (α × β)) (k k' : α) (v : β) (h : k' ≠ k) :
    dlookup (dinsert l k v) k' = dlookup l k' := by
  induction l with
  | nil =>
      have h' : ¬k = k' := fun hh => h hh.symm
      simp [dinsert, dlookup, h']
  | cons p rest ih =>
      obtain ⟨a, b⟩ := p
      by_cases hak : a = k
      · subst hak
        have h' : ¬a = k' := fun hh => h hh.symm
        simp [dinsert, dlookup, h']
      · simp [dinsert, dlookup, hak, ih]

theorem dinsert_dinsert {α β : Type} [DecidableEq α]
    (l : List (α × β)) (k : α) (v w : β) :
    dinsert (dinsert l k v) k w = dinsert l k w := by
  induction l with
  | nil => simp [dinsert]
  | cons p rest ih =>
      obtain ⟨a, b⟩ := p
      by_cases h : a = k
      · simp [dinsert, h]
      · simp [dinsert, h, ih]

theorem dinsert_self {α β : Type} [DecidableEq α]
    {l : List (α × β)} {k : α} {v : β} (h : dlookup l k = some v) :
    dinsert l k v = l := by
  induction l with
  | nil => simp [dlookup] at h
  | cons p rest ih =>
      obtain ⟨a, b⟩ := p
      by_cases hak : a = k
      · subst hak
        simp [dlookup] at h
        simp [dinsert, h]
      · simp [dlookup, hak] at h
        simp [dinsert, hak, ih h]

theorem dlookup_mem {α β : Type} [DecidableEq α]
    {l : List (α × β)} {k : α} {v : β} (h : dlookup l k = some v) :
    (k, v) ∈ l := by
  induction l with
  | nil => simp [dlookup] at h
  | cons p rest ih =>
      obtain ⟨a, b⟩ := p
      by_cases hak : a = k
      · subst hak
        simp [dlookup] at h
        simp [h]
      · simp [dlookup, hak] at h
        exact List.mem_cons_of_mem _ (ih h)

theorem innerKeysMatch_isSome {inner : List (ℚ × Bool)} {slots : List ℚ}
    (h : innerKeysMatch inner slots = true) (t : ℚ) :
    (dlookup inner t).isSome = true ↔ t ∈ slots := by
  unfold innerKeysMatch at h
  rw [Bool.and_eq_true] at h
  obtain ⟨h1, h2⟩ := h
  constructor
  · intro hs
    obtain ⟨v, hv⟩ := Option.isSome_iff_exists.mp hs
    have hm := dlookup_mem hv
    have := List.all_eq_true.mp h2 _ hm
    simpa using this
  · intro ht
    have := List.all_eq_true.mp h1 _ ht
    simpa using this

/-- Claim C4: with one participant "A", one day "D1" whose slot list is
1, 1.5, 2, 2.5 at interval 0.5, and a single two-timeblock task requiring
"A" and no conflicts, `schedule(["D1"], [task])` returns the assignment
mapping the task to day "D1" at start slot 1, the earliest valid start. -/
theorem c4_schedule_earliest :
    c4Sched.schedule ["D1"] ["task"]
      = some (some [("task", ArrVal.tb "D1" 1)]) := by
  decide

/-- Claim C10: constructing a `Scene` with a non-empty nonspeaking list
mutates the caller-supplied speaking list in place to speaking ++
nonspeaking (the returned second component is the caller's list after the
call); the scene's `speaking_actors` and `all_actors` are that same shared
value, so the scheduler treats speaking and nonspeaking actors alike. -/
theorem c10_scene_init_shares (name : String) (len : ℕ)
    (sp nsp : List String) (h : nsp ≠ []) :
    (Scene.init name len sp nsp).1.speaking_actors = sp ++ nsp ∧
    (Scene.init name len sp nsp).1.all_actors
      = (Scene.init name len sp nsp).1.speaking_actors ∧
    (Scene.init name len sp nsp).2
      = (Scene.init name len sp nsp).1.speaking_actors ∧
    (Scene.init name len sp nsp).2 ≠ sp := by
  refine ⟨rfl, rfl, rfl, ?_⟩
  show sp ++ nsp ≠ sp
  intro hcontra
  have hlen := congrArg List.length hcontra
  simp at hlen
  exact h hlen

/-- Witness for C10 at a concrete scene. -/
theorem c10_witness :
    (Scene.init "S" 2 ["A"] ["B"]).1.speaking_actors = ["A"] ++ ["B"] ∧
    (Scene.init "S" 2 ["A"] ["B"]).2 ≠ ["A"] :=
  ⟨(c10_scene_init_shares "S" 2 ["A"] ["B"] (by decide)).1,
   (c10_scene_init_shares "S" 2 ["A"] ["B"] (by decide)).2.2.2⟩

/-- Claim C9: `scene_works` mutates nothing.  The state-threaded
transcription `scene_works_st` provably returns the scheduler unchanged
(every participant ledger, the day-time grid, the interval and the scene
registry included), agrees with `scene_works` on the value, and calling it
again on the post-state returns the same result and state. -/
theorem c9_scene_works_pure (s : Scheduler) (scene day : String)
    (t0 tend : ℚ) :
    (s.scene_works_st scene day t0 tend).2 = s ∧
    (s.scene_works_st scene day t0 tend).2.calendar.actor_objects
      = s.calendar.actor_objects ∧
    (s.scene_works_st scene day t0 tend).2.calendar.day_time_chart
      = s.calendar.day_time_chart ∧
    (s.scene_works_st scene day t0 tend).2.calendar.interval
      = s.calendar.interval ∧
    (s.scene_works_st scene day t0 tend).2.scenes = s.scenes ∧
    (s.scene_works_st scene day t0 tend).1
      = s.scene_works scene day t0 tend ∧
    (s.scene_works_st scene day t0 tend).2.scene_works_st scene day t0 tend
      = s.scene_works_st scene day t0 tend := by
  have hst : (s.scene_works_st scene day t0 tend).2 = s := by
    unfold Scheduler.scene_works_st
    rcases dlookup s.scenes scene with _ | sc
    · rfl
    · dsimp only
      split
      · rfl
      · rcases s.calendar.is_available sc.all_actors day
          (s.generate_times t0 (t0 + (sc.length : ℚ) * s.calendar.interval))
          with _ | b <;> rfl
  have hval : (s.scene_works_st scene day t0 tend).1
      = s.scene_works scene day t0 tend := by
    unfold Scheduler.scene_works_st Scheduler.scene_works
    rcases dlookup s.scenes scene with _ | sc
    · rfl
    · dsimp only
      split
      · rfl
      · rcases s.calendar.is_available sc.all_actors day
          (s.generate_times t0 (t0 + (sc.length : ℚ) * s.calendar.interval))
          with _ | b <;> rfl
  refine ⟨hst, by rw [hst], by rw [hst], by rw [hst], by rw [hst], hval,
    by rw [hst]⟩

/-- Claim C5 fails on the code: `add_conflict` for a day unknown to the
grid raises a lookup error (modelled `none`) instead of silently doing
nothing, and for a known day with an unknown slot it inserts a fresh
unavailable entry, changing the ledger, instead of leaving it unchanged. -/
theorem c5_counterexample :
    c5Actor.add_conflict "D2" 1 = none ∧
    c5Actor.add_conflict "D1" 7 ≠ some c5Actor := by
  decide

/-- Claim C5 (amended): for a day known to the ledger, `mark_unavailable`
sets that day/slot to unavailable, changes no other entry, and is a
complete no-op when the entry is already false; for an unknown day it
raises a lookup error rather than silently doing nothing (and an unknown
slot on a known day is inserted as unavailable rather than ignored). -/
theorem c5_add_conflict_spec (a : Actor) (day : String) (time : ℚ) :
    (dlookup a.conflict_chart day = none → a.add_conflict day time = none) ∧
    (∀ inner, dlookup a.conflict_chart day = some inner →
      ∃ a', a.add_conflict day time = some a' ∧
        a'.name = a.name ∧
        dlookup2 a'.conflict_chart day time = some false ∧
        (∀ d t, d ≠ day ∨ t ≠ time →
          dlookup2 a'.conflict_chart d t = dlookup2 a.conflict_chart d t) ∧
        (dlookup inner time = some false → a' = a)) := by
  constructor
  · intro h
    unfold Actor.add_conflict
    rw [h]
  · intro inner h
    refine ⟨⟨a.name, dinsert a.conflict_chart day (dinsert inner time false)⟩,
      ?_, rfl, ?_, ?_, ?_⟩
    · unfold Actor.add_conflict
      rw [h]
    · simp [dlookup2, dlookup_dinsert_self]
    · intro d t hd
      by_cases hday : d = day
      · subst hday
        have ht : t ≠ time := hd.resolve_left (by simp)
        simp [dlookup2, dlookup_dinsert_self,
          dlookup_dinsert_ne _ _ _ _ ht, h]
      · simp [dlookup2, dlookup_dinsert_ne _ _ _ _ hday]
    · intro hf
      rw [dinsert_self hf, dinsert_self h]

/-- Witness for the amended C5 at a concrete actor, day and slot. -/
theorem c5_witness :
    ∃ a', c5Actor.add_conflict "D1" 1 = some a' ∧
      a'.name = c5Actor.name ∧
      dlookup2 a'.conflict_chart "D1" 1 = some false ∧
      (∀ d t, d ≠ "D1" ∨ t ≠ 1 →
        dlookup2 a'.conflict_chart d t = dlookup2 c5Actor.conflict_chart d t) ∧
      (dlookup ([((1 : ℚ), true), (3/2, true)]) 1 = some false →
        a' = c5Actor) :=
  (c5_add_conflict_spec c5Actor "D1" 1).2 [((1 : ℚ), true), (3/2, true)]
    (by decide)

/-- Claim C2 fails on the code: for a scene requiring no actors,
`scene_works` returns true even though an occupied slot (here 2) does not
exist in the day's grid.  Slot existence is only checked through the
required actors' ledgers, so with no required actors it is vacuous. -/
theorem c2_counterexample :
    cx2Sched.scene_works "S" "D1" 1 9000000 = some true ∧
    (2 : ℚ) ∈ cx2Sched.generate_times 1
      (1 + (3 : ℚ) * cx2Sched.calendar.interval) ∧
    dlookup cx2Sched.calendar.day_time_chart "D1" = some [1, 3/2] ∧
    (2 : ℚ) ∉ ([1, 3/2] : List ℚ) := by
  decide

/-! Characterisation of the availability queries. -/

theorem actor_available_true_iff (a : Actor) (day : String)
    (times : List ℚ) :
    a.is_available day times = some true ↔
      ∀ t ∈ times, dlookup2 a.conflict_chart day t = some true := by
  induction times with
  | nil => simp [Actor.is_available]
  | cons t rest ih =>
      unfold Actor.is_available
      rcases hl : dlookup2 a.conflict_chart day t with _ | b
      · simp [hl]
      · rcases b with _ | _
        · simp [hl]
        · simp [hl, ih]

theorem actor_available_total (a : Actor) (day : String) (times : List ℚ)
    (h : ∀ t ∈ times, (dlookup2 a.conflict_chart day t).isSome = true) :
    ∃ b, a.is_available day times = some b := by
  induction times with
  | nil => exact ⟨true, rfl⟩
  | cons t rest ih =>
      obtain ⟨v, hv⟩ := Option.isSome_iff_exists.mp (h t (by simp))
      unfold Actor.is_available
      simp only [hv]
      rcases v with _ | _
      · exact ⟨false, rfl⟩
      · simpa using ih fun t' ht' => h t' (by simp [ht'])

theorem calendar_available_true_iff (c : Calendar) (names : List String)
    (day : String) (times : List ℚ) :
    c.is_available names day times = some true ↔
      ∀ n ∈ names, ∃ a, dlookup c.actor_objects n = some a ∧
        a.is_available day times = some true := by
  induction names with
  | nil => simp [Calendar.is_available]
  | cons n rest ih =>
      unfold Calendar.is_available
      rcases hn : dlookup c.actor_objects n with _ | a
      · simp [hn]
      · rcases hb : a.is_available day times with _ | b
        · simp [hn, hb]
        · rcases b with _ | _
          · simp [hn, hb]
          · simp [hn, hb, ih]

theorem group_available_iff (c : Calendar) (names : List String)
    (day : String) (times : List ℚ) :
    c.is_available names day times = some true ↔
      ∀ n ∈ names, ∃ a, dlookup c.actor_objects n = some a ∧
        ∀ t ∈ times, dlookup2 a.conflict_chart day t = some true := by
  rw [calendar_available_true_iff]
  constructor
  · intro h n hn
    obtain ⟨a, ha, hav⟩ := h n hn
    exact ⟨a, ha, (actor_available_true_iff a day times).mp hav⟩
  · intro h n hn
    obtain ⟨a, ha, hav⟩ := h n hn
    exact ⟨a, ha, (actor_available_true_iff a day times).mpr hav⟩

theorem calendar_available_total (c : Calendar) (names : List String)
    (day : String) (times : List ℚ)
    (h : ∀ n ∈ names, ∃ a, dlookup c.actor_objects n = some a ∧
      ∀ t ∈ times, (dlookup2 a.conflict_chart day t).isSome = true) :
    ∃ b, c.is_available names day times = some b := by
  induction names with
  | nil => exact ⟨true, rfl⟩
  | cons n rest ih =>
      obtain ⟨a, ha, hkeys⟩ := h n (by simp)
      obtain ⟨b, hb⟩ := actor_available_total a day times hkeys
      unfold Calendar.is_available
      simp only [ha, hb]
      rcases b with _ | _
      · exact ⟨false, rfl⟩
      · simpa using ih fun n' hn' => h n' (by simp [hn'])

theorem scene_works_true_char (s : Scheduler) {scene : String} {sc : Scene}
    (day : String) (t0 tend : ℚ)
    (hreg : dlookup s.scenes scene = some sc) :
    s.scene_works scene day t0 tend = some true ↔
      (t0 + (sc.length : ℚ) * s.calendar.interval ≤ tend ∧
       ∀ n ∈ sc.all_actors, ∃ a, dlookup s.calendar.actor_objects n = some a ∧
         ∀ t ∈ s.generate_times t0
             (t0 + (sc.length : ℚ) * s.calendar.interval),
           dlookup2 a.conflict_chart day t = some true) := by
  unfold Scheduler.scene_works
  rw [hreg]
  dsimp only
  by_cases hgt : t0 + (sc.length : ℚ) * s.calendar.interval > tend
  · rw [if_pos hgt]
    simp [not_le.mpr hgt]
  · rw [if_neg hgt]
    have hle := not_lt.mp hgt
    rcases hav : s.calendar.is_available sc.all_actors day
        (s.generate_times t0 (t0 + (sc.length : ℚ) * s.calendar.interval))
      with _ | b
    · simp only [hle, true_and]
      rw [← group_available_iff, hav]
      simp
    · simp only [hle, true_and]
      rw [← group_available_iff, hav]

theorem scene_works_total (s : Scheduler) {scene : String} {sc : Scene}
    (day : String) (t0 tend : ℚ)
    (hreg : dlookup s.scenes scene = some sc) :
    ∃ b, s.scene_works scene day t0 tend = some b := by
  unfold Scheduler.scene_works
  rw [hreg]
  dsimp only
  by_cases hgt : t0 + (sc.length : ℚ) * s.calendar.interval > tend
  · rw [if_pos hgt]
    exact ⟨false, rfl⟩
  · rw [if_neg hgt]
    rcases s.calendar.is_available sc.all_actors day
        (s.generate_times t0 (t0 + (sc.length : ℚ) * s.calendar.interval))
      with _ | b
    · exact ⟨false, rfl⟩
    · exact ⟨b, rfl⟩

/-- Claim C2 (amended): for a registered scene, `scene_works(scene, day,
time_start, time_end)` returns true iff `end = time_start +
length * interval` satisfies `end <= time_end`, and every actor required by
the scene has every slot of the end-exclusive generated sequence recorded
in its own ledger for that day as available.  Slot existence is checked per
required actor through the ledger (which mirrors the grid at construction),
not against the grid itself, so with no required actors it is vacuous; the
omitted bound is the sentinel default `time_end = 9000000`, not infinity. -/
theorem c2_scene_works_spec (s : Scheduler) {scene : String} {sc : Scene}
    (day : String) (t0 tend : ℚ)
    (hreg : dlookup s.scenes scene = some sc) :
    s.scene_works scene day t0 tend = some true ↔
      (t0 + (sc.length : ℚ) * s.calendar.interval ≤ tend ∧
       ∀ n ∈ sc.all_actors, ∃ a, dlookup s.calendar.actor_objects n = some a ∧
         ∀ t ∈ s.generate_times t0
             (t0 + (sc.length : ℚ) * s.calendar.interval),
           dlookup2 a.conflict_chart day t = some true) :=
  scene_works_true_char s day t0 tend hreg

/-- Witness for the amended C2, at the concrete one-actor scheduler. -/
theorem c2_witness :
    dlookup w2Sched.scenes "S" = some (Scene.init "S" 2 ["A"] []).1 ∧
    (w2Sched.scene_works "S" "D1" 1 9000000 = some true ↔
      (1 + (((Scene.init "S" 2 ["A"] []).1.length : ℚ))
          * w2Sched.calendar.interval ≤ 9000000 ∧
       ∀ n ∈ (Scene.init "S" 2 ["A"] []).1.all_actors,
         ∃ a, dlookup w2Sched.calendar.actor_objects n = some a ∧
           ∀ t ∈ w2Sched.generate_times 1
               (1 + (((Scene.init "S" 2 ["A"] []).1.length : ℚ))
                 * w2Sched.calendar.interval),
             dlookup2 a.conflict_chart "D1" t = some true)) :=
  ⟨by decide, c2_scene_works_spec w2Sched "D1" 1 9000000 (by decide)⟩

/-- Claim C6 fails on the code: the group-availability result can depend on
the order of the participants.  Here actor "A" is unavailable at the
requested slot while actor "B" has no entry for it, so one order returns
`False` and the other raises a lookup error. -/
theorem c6_counterexample :
    c6Cal.is_available ["A", "B"] "D1" [2] = some false ∧
    c6Cal.is_available ["B", "A"] "D1" [2] = none ∧
    c6Cal.is_available ["A", "B"] "D1" [2]
      ≠ c6Cal.is_available ["B", "A"] "D1" [2] := by
  decide

/-- Claim C6 (amended): provided every named participant exists and every
queried slot is present in each of their ledgers for that day, the group
query returns without error, it returns false iff at least one named
participant is unavailable for at least one requested slot, it returns true
iff the conjunction of the per-participant checks holds, and its result is
invariant under permutations of the participant list.  Without the
slot-presence proviso a lookup raises, and the outcome becomes
order-dependent. -/
theorem c6_group_available_spec (c : Calendar) (names : List String)
    (day : String) (times : List ℚ)
    (h : ∀ n ∈ names, ∃ a, dlookup c.actor_objects n = some a ∧
      ∀ t ∈ times, (dlookup2 a.conflict_chart day t).isSome = true) :
    (∃ b, c.is_available names day times = some b) ∧
    (c.is_available names day times = some false ↔
      ∃ n ∈ names, ∃ a, dlookup c.actor_objects n = some a ∧
        ∃ t ∈ times, dlookup2 a.conflict_chart day t = some false) ∧
    (c.is_available names day times = some true ↔
      ∀ n ∈ names, ∃ a, dlookup c.actor_objects n = some a ∧
        ∀ t ∈ times, dlookup2 a.conflict_chart day t = some true) ∧
    (∀ names2, names2.Perm names →
      c.is_available names2 day times = c.is_available names day times) := by
  have htotal := calendar_available_total c names day times h
  have hfalse : c.is_available names day times = some false ↔
      ∃ n ∈ names, ∃ a, dlookup c.actor_objects n = some a ∧
        ∃ t ∈ times, dlookup2 a.conflict_chart day t = some false := by
    constructor
    · intro hf
      by_contra hno
      push_neg at hno
      have : c.is_available names day times = some true := by
        rw [group_available_iff]
        intro n hn
        obtain ⟨a, ha, hkeys⟩ := h n hn
        refine ⟨a, ha, fun t ht => ?_⟩
        obtain ⟨v, hv⟩ := Option.isSome_iff_exists.mp (hkeys t ht)
        rcases v with _ | _
        · exact absurd hv (hno n hn a ha t ht)
        · exact hv
      rw [this] at hf
      exact absurd (Option.some_inj.mp hf) (by simp)
    · intro ⟨n, hn, a, ha, t, ht, hfalse⟩
      obtain ⟨b, hb⟩ := htotal
      rcases b with _ | _
      · exact hb
      · exfalso
        rw [group_available_iff] at hb
        obtain ⟨a', ha', htrue⟩ := hb n hn
        rw [ha] at ha'
        cases Option.some_inj.mp ha'
        rw [htrue t ht] at hfalse
        exact absurd (Option.some_inj.mp hfalse) (by simp)
  refine ⟨htotal, hfalse, group_available_iff c names day times, ?_⟩
  intro names2 hperm
  have h2 : ∀ n ∈ names2, ∃ a, dlookup c.actor_objects n = some a ∧
      ∀ t ∈ times, (dlookup2 a.conflict_chart day t).isSome = true :=
    fun n hn => h n (hperm.mem_iff.mp hn)
  obtain ⟨b, hb⟩ := htotal
  rcases b with _ | _
  · rw [hb]
    have hfalse2 : c.is_available names2 day times = some false := by
      have hx := hfalse.mp hb
      obtain ⟨n, hn, a, ha, t, ht, hf⟩ := hx
      obtain ⟨b2, hb2⟩ := calendar_available_total c names2 day times h2
      rcases b2 with _ | _
      · exact hb2
      · exfalso
        rw [group_available_iff] at hb2
        obtain ⟨a', ha', htrue⟩ := hb2 n (hperm.mem_iff.mpr hn)
        rw [ha] at ha'
        cases Option.some_inj.mp ha'
        rw [htrue t ht] at hf
        exact absurd (Option.some_inj.mp hf) (by simp)
    exact hfalse2
  · rw [hb]
    rw [group_available_iff] at hb
    rw [group_available_iff]
    exact fun n hn => hb n (hperm.mem_iff.mp hn)

/-- Witness for the amended C6, at a concrete two-actor calendar. -/
theorem c6_witness :
    (∃ b, w6Cal.is_available ["A", "B"] "D1" [1] = some b) ∧
    w6Cal.is_available ["B", "A"] "D1" [1]
      = w6Cal.is_available ["A", "B"] "D1" [1] := by
  have h : ∀ n ∈ (["A", "B"] : List String),
      ∃ a, dlookup w6Cal.actor_objects n = some a ∧
        ∀ t ∈ ([1] : List ℚ),
          (dlookup2 a.conflict_chart "D1" t).isSome = true := by
    intro n hn
    rcases List.mem_cons.mp hn with rfl | hn2
    · exact ⟨Actor.create "A" [("D1", [1, 3/2])], by decide, by decide⟩
    · rcases List.mem_cons.mp hn2 with rfl | hn3
      · exact ⟨Actor.create "B" [("D1", [1, 3/2])], by decide, by decide⟩
      · exact absurd hn3 (by simp)
  exact ⟨(c6_group_available_spec w6Cal ["A", "B"] "D1" [1] h).1,
    (c6_group_available_spec w6Cal ["A", "B"] "D1" [1] h).2.2.2
      ["B", "A"] (by decide)⟩

/-! Conflict mutation lemmas. -/

theorem add_conflict_chart {a a1 : Actor} {day : String} {t1 : ℚ}
    (h : a.add_conflict day t1 = some a1) :
    ∃ inner, dlookup a.conflict_chart day = some inner ∧
      a1 = ⟨a.name, dinsert a.conflict_chart day (dinsert inner t1 false)⟩ := by
  unfold Actor.add_conflict at h
  rcases hl : dlookup a.conflict_chart day with _ | inner
  · rw [hl] at h
    simp at h
  · rw [hl] at h
    refine ⟨inner, rfl, ?_⟩
    exact (Option.some_inj.mp h).symm

theorem withActor_withActor (s : Scheduler) (n : String) (a b : Actor) :
    (s.withActor n a).withActor n b = s.withActor n b := by
  simp [Scheduler.withActor, dinsert_dinsert]

theorem withActor_self (s : Scheduler) {n : String} {a : Actor}
    (h : dlookup s.calendar.actor_objects n = some a) :
    s.withActor n a = s := by
  have : dinsert s.calendar.actor_objects n a = s.calendar.actor_objects :=
    dinsert_self h
  simp [Scheduler.withActor, this]

/-- Claim C7: if a feasibility check is true, marking one required
participant unavailable at any occupied slot flips it to false, and
clearing that same conflict restores the ledger to its original state and
the check to true. -/
theorem c7_conflict_roundtrip (s : Scheduler) {scene : String} {sc : Scene}
    (day : String) (t0 tend : ℚ) (n : String) (tstar : ℚ)
    (hreg : dlookup s.scenes scene = some sc)
    (hn : n ∈ sc.all_actors)
    (ht : tstar ∈ s.generate_times t0
      (t0 + (sc.length : ℚ) * s.calendar.interval))
    (hworks : s.scene_works scene day t0 tend = some true) :
    ∃ a a', dlookup s.calendar.actor_objects n = some a ∧
      a.add_conflict day tstar = some a' ∧
      (s.withActor n a').scene_works scene day t0 tend = some false ∧
      ∃ a'', a'.remove_conflict day tstar = some a'' ∧ a'' = a ∧
        (s.withActor n a').withActor n a'' = s ∧
        ((s.withActor n a').withActor n a'').scene_works scene day t0 tend
          = some true := by
  have hchar := (scene_works_true_char s day t0 tend hreg).mp hworks
  obtain ⟨hle, hactors⟩ := hchar
  obtain ⟨a, ha, hav⟩ := hactors n hn
  have hthis := hav tstar ht
  obtain ⟨inner, hi, hit⟩ : ∃ inner, dlookup a.conflict_chart day = some inner ∧
      dlookup inner tstar = some true := by
    unfold dlookup2 at hthis
    rcases hl : dlookup a.conflict_chart day with _ | inner
    · rw [hl] at hthis
      simp at hthis
    · rw [hl] at hthis
      exact ⟨inner, rfl, hthis⟩
  have hadd : a.add_conflict day tstar =
      some ⟨a.name, dinsert a.conflict_chart day (dinsert inner tstar false)⟩ := by
    unfold Actor.add_conflict
    rw [hi]
  set a' : Actor :=
    ⟨a.name, dinsert a.conflict_chart day (dinsert inner tstar false)⟩ with ha'
  refine ⟨a, a', ha, hadd, ?_, ?_⟩
  · -- the check is now false
    have hreg' : dlookup (s.withActor n a').scenes scene = some sc := hreg
    obtain ⟨b, hb⟩ := scene_works_total (s.withActor n a') day t0 tend hreg'
    rcases b with _ | _
    · exact hb
    · exfalso
      have hchar' := (scene_works_true_char (s.withActor n a') day t0 tend
        hreg').mp hb
      obtain ⟨a2, ha2, hav2⟩ := hchar'.2 n hn
      have ha2' : a2 = a' := by
        have : dlookup (s.withActor n a').calendar.actor_objects n
            = some a' := dlookup_dinsert_self _ _ _
        rw [this] at ha2
        exact (Option.some_inj.mp ha2).symm
      subst ha2'
      have := hav2 tstar ht
      rw [ha'] at this
      simp only [dlookup2, dlookup_dinsert_self] at this
      exact absurd (Option.some_inj.mp this) (by simp)
  · -- removing the conflict restores everything
    have hrem : a'.remove_conflict day tstar = some ⟨a.name, a.conflict_chart⟩ := by
      unfold Actor.remove_conflict
      rw [ha']
      simp only [dlookup_dinsert_self]
      rw [dinsert_dinsert inner tstar false true, dinsert_self hit,
        dinsert_dinsert a.conflict_chart day (dinsert inner tstar false) inner,
        dinsert_self hi]
    have haa : (⟨a.name, a.conflict_chart⟩ : Actor) = a := rfl
    refine ⟨⟨a.name, a.conflict_chart⟩, hrem, haa, ?_, ?_⟩
    · rw [haa, withActor_withActor, withActor_self s ha]
    · rw [haa, withActor_withActor, withActor_self s ha]
      exact hworks

/-- Witness for C7 at a concrete scheduler, scene, actor and slot. -/
theorem c7_witness :
    ∃ a a', dlookup w7Sched.calendar.actor_objects "A" = some a ∧
      a.add_conflict "D1" (3/2) = some a' ∧
      (w7Sched.withActor "A" a').scene_works "S" "D1" 1 9000000
        = some false ∧
      ∃ a'', a'.remove_conflict "D1" (3/2) = some a'' ∧ a'' = a ∧
        (w7Sched.withActor "A" a').withActor "A" a'' = w7Sched ∧
        ((w7Sched.withActor "A" a').withActor "A" a'').scene_works
          "S" "D1" 1 9000000 = some true :=
  @c7_conflict_roundtrip w7Sched "S" (Scene.init "S" 2 ["A"] []).1
    "D1" 1 9000000 "A" (3/2) (by decide) (by decide) (by decide) (by decide)

theorem addConflictTimes_preserves (name day : String) :
    ∀ (times : List ℚ) (c c' : Calendar) (t : ℚ),
    addConflictTimes name day times c = some c' →
    (∃ a, dlookup c.actor_objects name = some a ∧
      dlookup2 a.conflict_chart day t = some false) →
    ∃ a', dlookup c'.actor_objects name = some a' ∧
      dlookup2 a'.conflict_chart day t = some false := by
  intro times
  induction times with
  | nil =>
      intro c c' t h hx
      unfold addConflictTimes at h
      cases Option.some_inj.mp h
      exact hx
  | cons t1 rest ih =>
      intro c c' t h hx
      obtain ⟨a, ha, hf⟩ := hx
      unfold addConflictTimes at h
      simp only [ha] at h
      rcases hadd : a.add_conflict day t1 with _ | a1
      · simp [hadd] at h
      · simp only [hadd] at h
        apply ih _ c' t h
        obtain ⟨inner, hi, ha1⟩ := add_conflict_chart hadd
        refine ⟨a1, dlookup_dinsert_self _ _ _, ?_⟩
        subst ha1
        obtain ⟨inner0, hi0, hf0⟩ : ∃ inner0,
            dlookup a.conflict_chart day = some inner0 ∧
              dlookup inner0 t = some false := by
          unfold dlookup2 at hf
          rcases hl : dlookup a.conflict_chart day with _ | inner0
          · rw [hl] at hf
            simp at hf
          · rw [hl] at hf
            exact ⟨inner0, rfl, hf⟩
        have hii : inner0 = inner := by
          rw [hi0] at hi
          exact Option.some_inj.mp hi
        subst hii
        simp only [dlookup2, dlookup_dinsert_self]
        by_cases htt : t = t1
        · subst htt
          rw [dlookup_dinsert_self]
        · rw [dlookup_dinsert_ne _ _ _ _ htt]
          exact hf0

theorem addConflictTimes_post (name day : String) :
    ∀ (times : List ℚ) (c c' : Calendar),
    addConflictTimes name day times c = some c' →
    ∀ t ∈ times, ∃ a', dlookup c'.actor_objects name = some a' ∧
      dlookup2 a'.conflict_chart day t = some false := by
  intro times
  induction times with
  | nil =>
      intro c c' _ t ht
      simp at ht
  | cons t1 rest ih =>
      intro c c' h t ht
      unfold addConflictTimes at h
      rcases hna : dlookup c.actor_objects name with _ | a
      · simp [hna] at h
      · simp only [hna] at h
        rcases hadd : a.add_conflict day t1 with _ | a1
        · simp [hadd] at h
        · simp only [hadd] at h
          rcases List.mem_cons.mp ht with rfl | hrest
          · apply addConflictTimes_preserves name day rest _ c' t h
            obtain ⟨inner, hi, ha1⟩ := add_conflict_chart hadd
            refine ⟨a1, dlookup_dinsert_self _ _ _, ?_⟩
            subst ha1
            simp only [dlookup2, dlookup_dinsert_self]
          · exact ih _ c' h t hrest

theorem addConflictTimes_idem (name day : String) :
    ∀ (times : List ℚ) (c' : Calendar),
    (∀ t ∈ times, ∃ a', dlookup c'.actor_objects name = some a' ∧
      dlookup2 a'.conflict_chart day t = some false) →
    addConflictTimes name day times c' = some c' := by
  intro times
  induction times with
  | nil => intro c' _; rfl
  | cons t rest ih =>
      intro c' h
      obtain ⟨a', ha', hf⟩ := h t (by simp)
      obtain ⟨inner, hi, hfi⟩ : ∃ inner,
          dlookup a'.conflict_chart day = some inner ∧
            dlookup inner t = some false := by
        unfold dlookup2 at hf
        rcases hl : dlookup a'.conflict_chart day with _ | inner
        · rw [hl] at hf
          simp at hf
        · rw [hl] at hf
          exact ⟨inner, rfl, hf⟩
      unfold addConflictTimes
      simp only [ha']
      unfold Actor.add_conflict
      simp only [hi]
      rw [dinsert_self hfi, dinsert_self hi]
      have heta : (⟨a'.name, a'.conflict_chart⟩ : Actor) = a' := rfl
      rw [heta, dinsert_self ha']
      exact ih c' fun t' ht' => h t' (by simp [ht'])

/-- Claim C8: applying the same conflict a second time through
`Calendar.add_conflict` leaves the calendar — hence every participant's
ledger — exactly as after the first application. -/
theorem c8_add_conflict_idem (c c' : Calendar) (conflict : Conflict)
    (h : c.add_conflict conflict = some c') :
    c'.add_conflict conflict = some c' := by
  obtain ⟨name, day, times⟩ := conflict
  unfold Calendar.add_conflict at h ⊢
  exact addConflictTimes_idem name day times c'
    (addConflictTimes_post name day times c c' h)

/-- Witness for C8 at a concrete calendar and conflict. -/
theorem c8_witness :
    ∃ c', w8Cal.add_conflict ("A", "D1", [1]) = some c' ∧
      c'.add_conflict ("A", "D1", [1]) = some c' :=
  ⟨⟨["A"], [("D1", [1, 3/2])], ["D1"], 1/2,
    [("A", ⟨"A", [("D1", [(1, false), (3/2, true)])]⟩)]⟩,
   by decide, c8_add_conflict_idem w8Cal _ ("A", "D1", [1]) (by decide)⟩

/-! Occupancy-array lemmas. -/

theorem scheduleOpen_iff (sched : List Bool) (i req : ℕ) :
    scheduleOpen sched i req = true ↔
      ∀ j, i ≤ j → j < i + req → sched.get? j = some false := by
  unfold scheduleOpen
  rw [List.all_eq_true]
  constructor
  · intro h j h1 h2
    have := h j (List.mem_range'_1.mpr ⟨h1, h2⟩)
    rcases hj : sched.get? j with _ | v
    · rw [hj] at this
      simp at this
    · rw [hj] at this
      rcases v with _ | _
      · rfl
      · simp at this
  · intro h j hj
    obtain ⟨h1, h2⟩ := List.mem_range'_1.mp hj
    rw [h j h1 h2]
    rfl

theorem markRange_length (v : Bool) :
    ∀ (req : ℕ) (sched : List Bool) (i : ℕ),
    (markRange sched i req v).length = sched.length := by
  intro req
  induction req with
  | zero => intro sched i; rfl
  | succ req ih =>
      intro sched i
      unfold markRange
      rw [ih, List.length_set]

theorem markRange_get (v : Bool) :
    ∀ (req : ℕ) (sched : List Bool) (i j : ℕ),
    (markRange sched i req v).get? j =
      if i ≤ j ∧ j < i + req ∧ j < sched.length then some v
      else sched.get? j := by
  intro req
  induction req with
  | zero =>
      intro sched i j
      have : ¬(i ≤ j ∧ j < i + 0 ∧ j < sched.length) := by omega
      rw [if_neg this]
      rfl
  | succ req ih =>
      intro sched i j
      show (markRange (sched.set i v) (i + 1) req v).get? j = _
      rw [ih]
      rw [List.length_set]
      by_cases hcur : i = j
      · subst hcur
        by_cases hlen : i < sched.length
        · have h1 : ¬(i + 1 ≤ i ∧ i < i + 1 + req ∧ i < sched.length) := by
            omega
          have h2 : i ≤ i ∧ i < i + (req + 1) ∧ i < sched.length := by omega
          rw [if_neg h1, if_pos h2, List.get?_set]
          rw [if_pos rfl]
          rcases hx : sched.get? i with _ | w
          · rw [List.get?_eq_none] at hx
            omega
          · rfl
        · have h1 : ¬(i + 1 ≤ i ∧ i < i + 1 + req ∧ i < sched.length) := by
            omega
          have h2 : ¬(i ≤ i ∧ i < i + (req + 1) ∧ i < sched.length) := by
            omega
          rw [if_neg h1, if_neg h2, List.get?_set, if_pos rfl]
          have hx : sched.get? i = none := List.get?_eq_none.mpr (by omega)
          rw [hx]
          rfl
      · rw [List.get?_set_ne _ _ hcur]
        by_cases hin : i + 1 ≤ j ∧ j < i + 1 + req ∧ j < sched.length
        · rw [if_pos hin, if_pos (by omega)]
        · rw [if_neg hin, if_neg (by omega)]

theorem markRange_unmark {sched : List Bool} {i req : ℕ}
    (hfree : ∀ j, i ≤ j → j < i + req → sched.get? j = some false) :
    markRange (markRange sched i req true) i req false = sched := by
  apply List.ext_get?
  intro j
  rw [markRange_get, markRange_get, markRange_length]
  by_cases hin : i ≤ j ∧ j < i + req ∧ j < sched.length
  · rw [if_pos hin]
    exact (hfree j hin.1 hin.2.1).symm
  · rw [if_neg hin, if_neg hin]

/-! Backtracking-search lemmas. -/

theorem tryPlaces_fail (s : Scheduler) (tbs : List (String × ℚ))
    (sceneName : String) (req : ℕ)
    (recur : List Bool → Arrangement → Option (Bool × List Bool × Arrangement))
    (restNames : List String)
    (Hrf : ∀ sched arr sched' arr',
      recur sched arr = some (false, sched', arr') →
      sched' = sched ∧ ∀ name, name ∉ restNames →
        dlookup arr' name = dlookup arr name) :
    ∀ (is : List ℕ) (sched : List Bool) (arr : Arrangement)
      (sched' : List Bool) (arr' : Arrangement),
    tryPlaces s tbs sceneName req recur is sched arr
      = some (false, sched', arr') →
    sched' = sched ∧ ∀ name, name ≠ sceneName → name ∉ restNames →
      dlookup arr' name = dlookup arr name := by
  intro is
  induction is with
  | nil =>
      intro sched arr sched' arr' h
      unfold tryPlaces at h
      simp only [Option.some_inj, Prod.mk.injEq, true_and] at h
      exact ⟨h.1.symm, fun name _ _ => by rw [h.2]⟩
  | cons i rest ih =>
      intro sched arr sched' arr' h
      unfold tryPlaces at h
      rcases htb : tbs[i]? with _ | dayTime
      · simp [htb] at h
      · simp only [List.get?_eq_getElem?, htb] at h
        by_cases hopen : scheduleOpen sched i req = true
        · rw [if_pos hopen] at h
          rcases hval : s.schedule_is_valid sceneName dayTime.1 dayTime.2
            with _ | bv
          · simp [hval] at h
          · simp only [hval] at h
            rcases bv with _ | _
            · exact ih sched arr sched' arr' h
            · rcases hrec : recur (markRange sched i req true)
                  (dinsert arr sceneName (ArrVal.tb dayTime.1 dayTime.2))
                with _ | res
              · simp [hrec] at h
              · obtain ⟨bb, sched2, arr2⟩ := res
                simp only [hrec] at h
                rcases bb with _ | _
                · obtain ⟨hs2, hf2⟩ := Hrf _ _ _ _ hrec
                  have hrestore : markRange sched2 i req false = sched := by
                    rw [hs2]
                    exact markRange_unmark ((scheduleOpen_iff _ _ _).mp hopen)
                  obtain ⟨ha, hb⟩ := ih _ _ _ _ h
                  refine ⟨by rw [ha, hrestore], ?_⟩
                  intro name hne hnotin
                  rw [hb name hne hnotin,
                    dlookup_dinsert_ne _ _ _ _ hne, hf2 name hnotin,
                    dlookup_dinsert_ne _ _ _ _ hne]
                · simp at h
        · rw [if_neg hopen] at h
          exact ih sched arr sched' arr' h

theorem tryPlaces_success (s : Scheduler) (tbs : List (String × ℚ))
    (sceneName : String) (scMain : Scene)
    (recur : List Bool → Arrangement → Option (Bool × List Bool × Arrangement))
    (restNames : List String)
    (hregMain : dlookup s.scenes sceneName = some scMain)
    (hno : sceneName ∉ restNames)
    (Hrf : ∀ sched arr sched' arr',
      recur sched arr = some (false, sched', arr') →
      sched' = sched ∧ ∀ name, name ∉ restNames →
        dlookup arr' name = dlookup arr name)
    (Hrs : ∀ sched arr sched' arr',
      recur sched arr = some (true, sched', arr') →
      SolvePost s tbs sched arr arr' restNames) :
    ∀ (is : List ℕ) (sched : List Bool) (arr : Arrangement)
      (sched' : List Bool) (arr' : Arrangement),
    tryPlaces s tbs sceneName scMain.length recur is sched arr
      = some (true, sched', arr') →
    SolvePost s tbs sched arr arr' (sceneName :: restNames) := by
  intro is
  induction is with
  | nil =>
      intro sched arr sched' arr' h
      unfold tryPlaces at h
      simp at h
  | cons i rest ih =>
      intro sched arr sched' arr' h
      unfold tryPlaces at h
      rcases htb : tbs[i]? with _ | day0t0
      · simp [htb] at h
      · obtain ⟨day0, t0⟩ := day0t0
        simp only [List.get?_eq_getElem?, htb] at h
        by_cases hopen : scheduleOpen sched i scMain.length = true
        · rw [if_pos hopen] at h
          rcases hval : s.schedule_is_valid sceneName day0 t0 with _ | bv
          · simp [hval] at h
          · simp only [hval] at h
            rcases bv with _ | _
            · exact ih sched arr sched' arr' h
            · rcases hrec : recur (markRange sched i scMain.length true)
                  (dinsert arr sceneName (ArrVal.tb day0 t0))
                with _ | res
              · simp [hrec] at h
              · obtain ⟨bb, sched2, arr2⟩ := res
                simp only [hrec] at h
                rcases bb with _ | _
                · obtain ⟨hs2, hf2⟩ := Hrf _ _ _ _ hrec
                  have hrestore : markRange sched2 i scMain.length false
                      = sched := by
                    rw [hs2]
                    exact markRange_unmark ((scheduleOpen_iff _ _ _).mp hopen)
                  obtain ⟨hframe, pos, hplaced, hdisj⟩ := ih _ _ _ _ h
                  rw [hrestore] at hplaced
                  refine ⟨?_, pos, hplaced, hdisj⟩
                  intro name hnotin
                  have hne : name ≠ sceneName := by
                    intro hq
                    exact hnotin (hq ▸ List.mem_cons_self _ _)
                  have hnin : name ∉ restNames := fun hq =>
                    hnotin (List.mem_cons_of_mem _ hq)
                  rw [hframe name hnotin,
                    dlookup_dinsert_ne _ _ _ _ hne, hf2 name hnin,
                    dlookup_dinsert_ne _ _ _ _ hne]
                · simp only [Option.some_inj, Prod.mk.injEq, true_and] at h
                  obtain ⟨hseq, haeq⟩ := h
                  subst hseq
                  subst haeq
                  obtain ⟨hframe, pos, hplaced, hdisj⟩ := Hrs _ _ _ _ hrec
                  have hfree := (scheduleOpen_iff _ _ _).mp hopen
                  have havoid : ∀ x ∈ restNames, ∀ sx,
                      dlookup s.scenes x = some sx →
                      ∀ j, pos x ≤ j → j < pos x + sx.length →
                        sched.get? j = some false ∧
                          ¬(i ≤ j ∧ j < i + scMain.length) := by
                    intro x hx sx hsx j h1 h2
                    obtain ⟨sx', day', t', hsx', htb', hworks', harr', hfr⟩ :=
                      hplaced x hx
                    rw [hsx] at hsx'
                    cases Option.some_inj.mp hsx'
                    have hmk := hfr j h1 h2
                    rw [markRange_get] at hmk
                    by_cases hc : i ≤ j ∧ j < i + scMain.length ∧
                        j < sched.length
                    · rw [if_pos hc] at hmk
                      simp at hmk
                    · rw [if_neg hc] at hmk
                      have hjlen : j < sched.length := by
                        by_contra hbig
                        rw [List.get?_eq_none.mpr (by omega)] at hmk
                        simp at hmk
                      exact ⟨hmk, fun hq => hc ⟨hq.1, hq.2, hjlen⟩⟩
                  unfold Scheduler.schedule_is_valid at hval
                  refine ⟨?_, fun x => if x = sceneName then i else pos x,
                    ?_, ?_⟩
                  · intro name hnotin
                    have hne : name ≠ sceneName := by
                      intro hq
                      exact hnotin (hq ▸ List.mem_cons_self _ _)
                    have hnin : name ∉ restNames := fun hq =>
                      hnotin (List.mem_cons_of_mem _ hq)
                    rw [hframe name hnin, dlookup_dinsert_ne _ _ _ _ hne]
                  · intro x hx
                    dsimp only
                    rcases List.mem_cons.mp hx with rfl | hx2
                    · rw [if_pos rfl]
                      refine ⟨scMain, day0, t0, hregMain, ?_, hval, ?_, ?_⟩
                      · rw [List.get?_eq_getElem?]
                        exact htb
                      · rw [hframe x hno, dlookup_dinsert_self]
                      · exact hfree
                    · have hxne : x ≠ sceneName := by
                        intro hq
                        exact hno (hq ▸ hx2)
                      rw [if_neg hxne]
                      obtain ⟨sx, day', t', hsx, htb', hworks', harr', hfr⟩ :=
                        hplaced x hx2
                      exact ⟨sx, day', t', hsx, htb', hworks', harr',
                        fun j h1 h2 => (havoid x hx2 sx hsx j h1 h2).1⟩
                  · intro a ha b hb hab sca scb hsca hscb j hj
                    dsimp only at hj
                    rcases List.mem_cons.mp ha with rfl | ha2
                    · rcases List.mem_cons.mp hb with rfl | hb2
                      · exact hab rfl
                      · rw [if_pos rfl] at hj
                        have hbne : b ≠ a := by
                          intro hq
                          exact hno (hq ▸ hb2)
                        rw [if_neg hbne] at hj
                        rw [hregMain] at hsca
                        cases Option.some_inj.mp hsca
                        exact (havoid b hb2 scb hscb j hj.2.1 hj.2.2).2 hj.1
                    · rcases List.mem_cons.mp hb with rfl | hb2
                      · have hane : a ≠ b := by
                          intro hq
                          exact hno (hq ▸ ha2)
                        rw [if_neg hane] at hj
                        rw [if_pos rfl] at hj
                        rw [hregMain] at hscb
                        cases Option.some_inj.mp hscb
                        exact (havoid a ha2 sca hsca j hj.1.1 hj.1.2).2 hj.2
                      · have hane : a ≠ sceneName := by
                          intro hq
                          exact hno (hq ▸ ha2)
                        have hbne : b ≠ sceneName := by
                          intro hq
                          exact hno (hq ▸ hb2)
                        rw [if_neg hane, if_neg hbne] at hj
                        exact hdisj a ha2 b hb2 hab sca scb hsca hscb j hj
        · rw [if_neg hopen] at h
          exact ih sched arr sched' arr' h

theorem schedule_solve_fail (s : Scheduler) (tbs : List (String × ℚ)) :
    ∀ (fuel : ℕ) (l : List String), l.length ≤ fuel →
    ∀ (sched : List Bool) (arr : Arrangement)
      (sched' : List Bool) (arr' : Arrangement),
    s.schedule_solve tbs fuel l sched arr = some (false, sched', arr') →
    sched' = sched ∧ ∀ name, name ∉ l →
      dlookup arr' name = dlookup arr name := by
  intro fuel
  induction fuel with
  | zero =>
      intro l hlen sched arr sched' arr' h
      rcases l with _ | ⟨x, rest⟩
      · unfold Scheduler.schedule_solve at h
        simp at h
      · simp at hlen
  | succ fuel ih =>
      intro l hlen sched arr sched' arr' h
      rcases l with _ | ⟨scene, rest⟩
      · unfold Scheduler.schedule_solve at h
        simp at h
      · unfold Scheduler.schedule_solve at h
        rcases hreg : dlookup s.scenes scene with _ | sc
        · simp [hreg] at h
        · simp only [hreg] at h
          have hlen' : rest.length ≤ fuel := by
            simp at hlen
            omega
          obtain ⟨hs, hf⟩ := tryPlaces_fail s tbs scene sc.length
            (fun sched' arr' => s.schedule_solve tbs fuel rest sched' arr')
            rest (fun sched arr sched' arr' hx => ih rest hlen' _ _ _ _ hx)
            _ _ _ _ _ h
          refine ⟨hs, ?_⟩
          intro name hnotin
          have hne : name ≠ scene := by
            intro hq
            exact hnotin (hq ▸ List.mem_cons_self _ _)
          have hnin : name ∉ rest := fun hq =>
            hnotin (List.mem_cons_of_mem _ hq)
          exact hf name hne hnin

theorem schedule_solve_success (s : Scheduler) (tbs : List (String × ℚ)) :
    ∀ (fuel : ℕ) (l : List String), l.length ≤ fuel → l.Nodup →
    ∀ (sched : List Bool) (arr : Arrangement)
      (sched' : List Bool) (arr' : Arrangement),
    s.schedule_solve tbs fuel l sched arr = some (true, sched', arr') →
    SolvePost s tbs sched arr arr' l := by
  intro fuel
  induction fuel with
  | zero =>
      intro l hlen hnd sched arr sched' arr' h
      rcases l with _ | ⟨x, rest⟩
      · unfold Scheduler.schedule_solve at h
        simp only [Option.some_inj, Prod.mk.injEq, true_and] at h
        obtain ⟨h1, h2⟩ := h
        subst h1
        subst h2
        exact ⟨fun name _ => rfl, fun _ => 0, by simp, by
          intro a ha
          simp at ha⟩
      · simp at hlen
  | succ fuel ih =>
      intro l hlen hnd sched arr sched' arr' h
      rcases l with _ | ⟨scene, rest⟩
      · unfold Scheduler.schedule_solve at h
        simp only [Option.some_inj, Prod.mk.injEq, true_and] at h
        obtain ⟨h1, h2⟩ := h
        subst h1
        subst h2
        exact ⟨fun name _ => rfl, fun _ => 0, by simp, by
          intro a ha
          simp at ha⟩
      · unfold Scheduler.schedule_solve at h
        rcases hreg : dlookup s.scenes scene with _ | sc
        · simp [hreg] at h
        · simp only [hreg] at h
          have hlen' : rest.length ≤ fuel := by
            simp at hlen
            omega
          obtain ⟨hnotin, hnd'⟩ := List.nodup_cons.mp hnd
          exact tryPlaces_success s tbs scene sc
            (fun sched' arr' => s.schedule_solve tbs fuel rest sched' arr')
            rest hreg hnotin
            (fun sched arr sched' arr' hx =>
              schedule_solve_fail s tbs fuel rest hlen' _ _ _ _ hx)
            (fun sched arr sched' arr' hx =>
              ih rest hlen' hnd' _ _ _ _ hx)
            _ _ _ _ _ h

theorem tryPlaces_some_works (s : Scheduler) (tbs : List (String × ℚ))
    (sceneName : String) (req : ℕ)
    (recur : List Bool → Arrangement → Option (Bool × List Bool × Arrangement))
    (Q : Prop)
    (Hrs : ∀ sched arr sched2 arr2,
      recur sched arr = some (true, sched2, arr2) → Q) :
    ∀ (is : List ℕ) (sched : List Bool) (arr : Arrangement)
      (sched' : List Bool) (arr' : Arrangement),
    tryPlaces s tbs sceneName req recur is sched arr
      = some (true, sched', arr') →
    (∃ p day t, tbs.get? p = some (day, t) ∧
      s.scene_works sceneName day t 9000000 = some true) ∧ Q := by
  intro is
  induction is with
  | nil =>
      intro sched arr sched' arr' h
      unfold tryPlaces at h
      simp at h
  | cons i rest ih =>
      intro sched arr sched' arr' h
      unfold tryPlaces at h
      rcases htb : tbs[i]? with _ | day0t0
      · simp [htb] at h
      · obtain ⟨day0, t0⟩ := day0t0
        simp only [List.get?_eq_getElem?, htb] at h
        by_cases hopen : scheduleOpen sched i req = true
        · rw [if_pos hopen] at h
          rcases hval : s.schedule_is_valid sceneName day0 t0 with _ | bv
          · simp [hval] at h
          · simp only [hval] at h
            rcases bv with _ | _
            · exact ih sched arr sched' arr' h
            · rcases hrec : recur (markRange sched i req true)
                  (dinsert arr sceneName (ArrVal.tb day0 t0)) with _ | res
              · simp [hrec] at h
              · obtain ⟨bb, sched2, arr2⟩ := res
                simp only [hrec] at h
                rcases bb with _ | _
                · exact ih _ _ _ _ h
                · unfold Scheduler.schedule_is_valid at hval
                  refine ⟨⟨i, day0, t0, ?_, hval⟩, Hrs _ _ _ _ hrec⟩
                  rw [List.get?_eq_getElem?]
                  exact htb
        · rw [if_neg hopen] at h
          exact ih sched arr sched' arr' h

theorem schedule_solve_works (s : Scheduler) (tbs : List (String × ℚ)) :
    ∀ (fuel : ℕ) (l : List String)
      (sched : List Bool) (arr : Arrangement)
      (sched' : List Bool) (arr' : Arrangement),
    s.schedule_solve tbs fuel l sched arr = some (true, sched', arr') →
    ∀ x ∈ l, ∃ sc p day t, dlookup s.scenes x = some sc ∧
      tbs.get? p = some (day, t) ∧
      s.scene_works x day t 9000000 = some true := by
  intro fuel
  induction fuel with
  | zero =>
      intro l sched arr sched' arr' h x hx
      rcases l with _ | ⟨y, rest⟩
      · simp at hx
      · unfold Scheduler.schedule_solve at h
        simp at h
  | succ fuel ih =>
      intro l sched arr sched' arr' h x hx
      rcases l with _ | ⟨scene, rest⟩
      · simp at hx
      · unfold Scheduler.schedule_solve at h
        rcases hreg : dlookup s.scenes scene with _ | sc
        · simp [hreg] at h
        · simp only [hreg] at h
          have hstep := tryPlaces_some_works s tbs scene sc.length
            (fun sched' arr' => s.schedule_solve tbs fuel rest sched' arr')
            (∀ x ∈ rest, ∃ sc p day t, dlookup s.scenes x = some sc ∧
              tbs.get? p = some (day, t) ∧
              s.scene_works x day t 9000000 = some true)
            (fun sched arr sched2 arr2 hx2 => ih rest _ _ _ _ hx2)
            _ _ _ _ _ h
          rcases List.mem_cons.mp hx with rfl | hx2
          · obtain ⟨⟨p, day, t, htb, hworks⟩, _⟩ := hstep
            exact ⟨sc, p, day, t, hreg, htb, hworks⟩
          · exact hstep.2 x hx2

/-! Timeline and grid lemmas. -/

theorem buildTimeblocks_entry (cal : Calendar) :
    ∀ (days : List String) (tbs : List (String × ℚ)),
    buildTimeblocks cal days = some tbs →
    ∀ i d t, tbs.get? i = some (d, t) →
    d ∈ days ∧ ∃ slots p, dlookup cal.day_time_chart d = some slots ∧
      slots.get? p = some t := by
  intro days
  induction days with
  | nil =>
      intro tbs h i d t hi
      unfold buildTimeblocks at h
      cases Option.some_inj.mp h
      simp [List.get?_eq_getElem?] at hi
  | cons d0 rest ih =>
      intro tbs h i d t hi
      unfold buildTimeblocks at h
      rcases hc : dlookup cal.day_time_chart d0 with _ | slots0
      · simp [hc] at h
      · simp only [hc] at h
        rcases hr : buildTimeblocks cal rest with _ | tbs'
        · simp [hr] at h
        · simp only [hr, Option.some_inj] at h
          subst h
          by_cases hlt : i < (slots0.map fun b => (d0, b)).length
          · rw [List.get?_append hlt] at hi
            rw [List.get?_map] at hi
            rcases hs : slots0.get? i with _ | b
            · rw [hs] at hi
              simp at hi
            · rw [hs] at hi
              simp at hi
              obtain ⟨hd, ht⟩ := hi
              subst hd
              subst ht
              exact ⟨List.mem_cons_self _ _, slots0, i, hc, hs⟩
          · rw [List.get?_append_right (by omega)] at hi
            obtain ⟨hmem, rest_fact⟩ := ih tbs' hr _ d t hi
            exact ⟨List.mem_cons_of_mem _ hmem, rest_fact⟩

theorem buildTimeblocks_same_day (cal : Calendar) :
    ∀ (days : List String), days.Nodup →
    ∀ (tbs : List (String × ℚ)), buildTimeblocks cal days = some tbs →
    ∀ i j d ti tj, tbs.get? i = some (d, ti) → tbs.get? j = some (d, tj) →
    ∃ slots p q, dlookup cal.day_time_chart d = some slots ∧
      slots.get? p = some ti ∧ slots.get? q = some tj ∧ p + j = q + i := by
  intro days
  induction days with
  | nil =>
      intro _ tbs h i j d ti tj hi hj
      unfold buildTimeblocks at h
      cases Option.some_inj.mp h
      simp [List.get?_eq_getElem?] at hi
  | cons d0 rest ih =>
      intro hnd tbs h i j d ti tj hi hj
      obtain ⟨hd0, hnd'⟩ := List.nodup_cons.mp hnd
      unfold buildTimeblocks at h
      rcases hc : dlookup cal.day_time_chart d0 with _ | slots0
      · simp [hc] at h
      · simp only [hc] at h
        rcases hr : buildTimeblocks cal rest with _ | tbs'
        · simp [hr] at h
        · simp only [hr, Option.some_inj] at h
          subst h
          set seg := slots0.map fun b => (d0, b) with hseg
          by_cases hilt : i < seg.length
          · rw [List.get?_append hilt] at hi
            rw [hseg, List.get?_map] at hi
            rcases hsi : slots0.get? i with _ | bi
            · rw [hsi] at hi
              simp at hi
            · rw [hsi] at hi
              simp at hi
              obtain ⟨hd, ht⟩ := hi
              subst hd
              by_cases hjlt : j < seg.length
              · rw [List.get?_append hjlt] at hj
                rw [hseg, List.get?_map] at hj
                rcases hsj : slots0.get? j with _ | bj
                · rw [hsj] at hj
                  simp at hj
                · rw [hsj] at hj
                  simp at hj
                  refine ⟨slots0, i, j, hc, ?_, ?_, by omega⟩
                  · rw [hsi, ht]
                  · rw [hsj, hj]
              · rw [List.get?_append_right (by omega)] at hj
                have := (buildTimeblocks_entry cal rest tbs' hr _ _ _ hj).1
                exact absurd this hd0
          · rw [List.get?_append_right (by omega)] at hi
            have hmem := (buildTimeblocks_entry cal rest tbs' hr _ _ _ hi).1
            by_cases hjlt : j < seg.length
            · rw [List.get?_append hjlt] at hj
              rw [hseg, List.get?_map] at hj
              rcases hsj : slots0.get? j with _ | bj
              · rw [hsj] at hj
                simp at hj
              · rw [hsj] at hj
                simp at hj
                obtain ⟨hd, _⟩ := hj
                subst hd
                exact absurd hmem hd0
            · rw [List.get?_append_right (by omega)] at hj
              obtain ⟨slots, p, q, h1, h2, h3, h4⟩ :=
                ih hnd' tbs' hr _ _ d ti tj hi hj
              exact ⟨slots, p, q, h1, h2, h3, by omega⟩

theorem arithSlotsB_get_head :
    ∀ (l : List ℚ) (interval a : ℚ),
    arithSlotsB (a :: l) interval = true →
    ∀ p t, (a :: l).get? p = some t → t = a + (p : ℚ) * interval := by
  intro l
  induction l with
  | nil =>
      intro interval a _ p t hp
      rcases p with _ | p'
      · simp [List.get?_eq_getElem?] at hp
        subst hp
        simp
      · simp [List.get?_eq_getElem?] at hp
  | cons b l' ih =>
      intro interval a h p t hp
      unfold arithSlotsB at h
      rw [Bool.and_eq_true] at h
      obtain ⟨h1, h2⟩ := h
      have hba : b = a + interval := of_decide_eq_true h1
      rcases p with _ | p'
      · simp [List.get?_eq_getElem?] at hp
        subst hp
        simp
      · have hp' : (b :: l').get? p' = some t := by
          simpa [List.get?_eq_getElem?] using hp
        have := ih interval b h2 p' t hp'
        rw [this, hba]
        push_cast
        ring

theorem arithSlotsB_get {slots : List ℚ} {interval : ℚ}
    (h : arithSlotsB slots interval = true)
    {p q : ℕ} {tp tq : ℚ}
    (hp : slots.get? p = some tp) (hq : slots.get? q = some tq) :
    tq + (p : ℚ) * interval = tp + (q : ℚ) * interval := by
  rcases slots with _ | ⟨a, l⟩
  · simp [List.get?_eq_getElem?] at hp
  · rw [arithSlotsB_get_head l interval a h p tp hp,
      arithSlotsB_get_head l interval a h q tq hq]
    ring

theorem checkGrids_day {cal : Calendar} {days : List String}
    (h : checkGrids cal days = true) {d : String} (hd : d ∈ days) :
    ∃ slots, dlookup cal.day_time_chart d = some slots ∧
      arithSlotsB slots cal.interval = true := by
  unfold checkGrids at h
  have := List.all_eq_true.mp h d hd
  rcases hc : dlookup cal.day_time_chart d with _ | slots
  · rw [hc] at this
    simp at this
  · rw [hc] at this
    exact ⟨slots, rfl, this⟩

theorem generate_times_eq (s : Scheduler) (t0 : ℚ) (len : ℕ)
    (hi : 0 < s.calendar.interval) :
    s.generate_times t0 (t0 + (len : ℚ) * s.calendar.interval)
      = (List.range len).map fun k : ℕ => t0 + s.calendar.interval * (k : ℚ) := by
  unfold Scheduler.generate_times
  have h1 : (t0 + (len : ℚ) * s.calendar.interval - t0) / s.calendar.interval
      = (len : ℚ) := by
    field_simp
  dsimp only
  rw [h1, Int.floor_natCast, Int.toNat_natCast]

/-- Claim C1: when `schedule(days, scenes)` returns an assignment (for
duplicate-free day and scene lists over grids that ascend in steps of the
positive interval), every pair of distinct scenes assigned to the same day
occupies disjoint slot ranges `[start, start + length * interval)`, and
every actor required by a scheduled scene is marked available in that
actor's ledger at every slot the scene occupies on its assigned day. -/
theorem c1_schedule_sound (s : Scheduler) (days scenes : List String)
    (arr : Arrangement)
    (hint : 0 < s.calendar.interval)
    (hdays : days.Nodup) (hscenes : scenes.Nodup)
    (hgrid : checkGrids s.calendar days = true)
    (hrun : s.schedule days scenes = some (some arr)) :
    (∀ a b da ta db tb2 sa sb,
      a ≠ b →
      dlookup arr a = some (ArrVal.tb da ta) →
      dlookup arr b = some (ArrVal.tb db tb2) →
      dlookup s.scenes a = some sa → dlookup s.scenes b = some sb →
      da = db →
      ∀ x : ℚ, ¬((ta ≤ x ∧ x < ta + (sa.length : ℚ) * s.calendar.interval) ∧
        (tb2 ≤ x ∧ x < tb2 + (sb.length : ℚ) * s.calendar.interval))) ∧
    (∀ a da ta, dlookup arr a = some (ArrVal.tb da ta) →
      ∃ sa, dlookup s.scenes a = some sa ∧
        ∀ n ∈ sa.all_actors, ∃ actor,
          dlookup s.calendar.actor_objects n = some actor ∧
          ∀ t ∈ s.generate_times ta
              (ta + (sa.length : ℚ) * s.calendar.interval),
            dlookup2 actor.conflict_chart da t = some true) := by
  unfold Scheduler.schedule at hrun
  rcases hbt : buildTimeblocks s.calendar days with _ | tbs
  · simp [hbt] at hrun
  · simp only [hbt] at hrun
    rcases hsolve : s.schedule_solve tbs scenes.length scenes
        (List.replicate tbs.length false) [] with _ | res
    · simp [hsolve] at hrun
    · obtain ⟨bb, schedF, arrF⟩ := res
      simp only [hsolve] at hrun
      rcases bb with _ | _
      · simp at hrun
      · simp only [Option.some_inj] at hrun
        subst hrun
        obtain ⟨hframe, pos, hplaced, hdisj⟩ :=
          schedule_solve_success s tbs scenes.length scenes (le_refl _)
            hscenes _ _ _ _ hsolve
        have hmem : ∀ name v, dlookup arrF name = some v → name ∈ scenes := by
          intro name v hv
          by_contra hq
          rw [hframe name hq] at hv
          simp [dlookup] at hv
        constructor
        · intro a b da ta db tb2 sa sb hab hA hB hsa hsb hdd x hx
          obtain ⟨⟨hax1, hax2⟩, hbx1, hbx2⟩ := hx
          subst hdd
          have haS := hmem a _ hA
          have hbS := hmem b _ hB
          obtain ⟨sa', daya, ta', hsa', htba, hworksa, harra, _⟩ :=
            hplaced a haS
          rw [hA] at harra
          simp at harra
          obtain ⟨hda, hta⟩ := harra
          subst hda
          subst hta
          rw [hsa] at hsa'
          cases Option.some_inj.mp hsa'
          obtain ⟨sb', dayb, tb', hsb', htbb, hworksb, harrb, _⟩ :=
            hplaced b hbS
          rw [hB] at harrb
          simp at harrb
          obtain ⟨hdb, htb2⟩ := harrb
          subst hdb
          subst htb2
          rw [hsb] at hsb'
          cases Option.some_inj.mp hsb'
          have hposA : (0 : ℚ) < (sa.length : ℚ) * s.calendar.interval := by
            linarith
          have hposB : (0 : ℚ) < (sb.length : ℚ) * s.calendar.interval := by
            linarith
          have hlenA : 0 < sa.length := by
            by_contra h0
            push_neg at h0
            have h00 : sa.length = 0 := Nat.le_zero.mp h0
            rw [h00] at hposA
            simp at hposA
          have hlenB : 0 < sb.length := by
            by_contra h0
            push_neg at h0
            have h00 : sb.length = 0 := Nat.le_zero.mp h0
            rw [h00] at hposB
            simp at hposB
          obtain ⟨slots, p, q, hchart, hp, hq, hpq⟩ :=
            buildTimeblocks_same_day s.calendar days hdays tbs hbt
              (pos a) (pos b) da ta tb2 htba htbb
          have hdmem :=
            (buildTimeblocks_entry s.calendar days tbs hbt _ _ _ htba).1
          obtain ⟨slots2, hchart2, harith⟩ := checkGrids_day hgrid hdmem
          rw [hchart] at hchart2
          cases Option.some_inj.mp hchart2
          have hdisjab := hdisj a haS b hbS hab sa sb hsa hsb
          have hsplit : pos a + sa.length ≤ pos b ∨
              pos b + sb.length ≤ pos a := by
            by_contra hcon
            push_neg at hcon
            obtain ⟨h1, h2⟩ := hcon
            exact hdisjab (max (pos a) (pos b)) (by omega)
          have htimes := arithSlotsB_get harith hp hq
          rcases hsplit with hcase | hcase
          · have hq' : p + sa.length ≤ q := by omega
            have hcast : (p : ℚ) + (sa.length : ℚ) ≤ (q : ℚ) := by
              exact_mod_cast hq'
            have hmul := mul_le_mul_of_nonneg_right hcast (le_of_lt hint)
            rw [add_mul] at hmul
            have hsep : ta + (sa.length : ℚ) * s.calendar.interval ≤ tb2 := by
              linarith
            linarith
          · have hq' : q + sb.length ≤ p := by omega
            have hcast : (q : ℚ) + (sb.length : ℚ) ≤ (p : ℚ) := by
              exact_mod_cast hq'
            have hmul := mul_le_mul_of_nonneg_right hcast (le_of_lt hint)
            rw [add_mul] at hmul
            have hsep : tb2 + (sb.length : ℚ) * s.calendar.interval ≤ ta := by
              linarith
            linarith
        · intro a da ta hA
          have haS := hmem a _ hA
          obtain ⟨sa', daya, ta', hsa', htba, hworksa, harra, _⟩ :=
            hplaced a haS
          rw [hA] at harra
          simp at harra
          obtain ⟨hda, hta⟩ := harra
          subst hda
          subst hta
          have hchar := (scene_works_true_char s da ta 9000000 hsa').mp hworksa
          exact ⟨sa', hsa', hchar.2⟩

/-- Witness for C1: a concrete run placing two scenes on one day. -/
theorem c1_witness :
    (0 : ℚ) < c1Sched.calendar.interval ∧
    c1Sched.schedule ["D1"] ["S1", "S2"] = some (some c1Arr) ∧
    (∀ a b da ta db tb2 sa sb,
      a ≠ b →
      dlookup c1Arr a = some (ArrVal.tb da ta) →
      dlookup c1Arr b = some (ArrVal.tb db tb2) →
      dlookup c1Sched.scenes a = some sa →
      dlookup c1Sched.scenes b = some sb →
      da = db →
      ∀ x : ℚ,
        ¬((ta ≤ x ∧ x < ta + (sa.length : ℚ) * c1Sched.calendar.interval) ∧
          (tb2 ≤ x ∧
            x < tb2 + (sb.length : ℚ) * c1Sched.calendar.interval))) ∧
    (∀ a da ta, dlookup c1Arr a = some (ArrVal.tb da ta) →
      ∃ sa, dlookup c1Sched.scenes a = some sa ∧
        ∀ n ∈ sa.all_actors, ∃ actor,
          dlookup c1Sched.calendar.actor_objects n = some actor ∧
          ∀ t ∈ c1Sched.generate_times ta
              (ta + (sa.length : ℚ) * c1Sched.calendar.interval),
            dlookup2 actor.conflict_chart da t = some true) :=
  ⟨by decide, by decide,
   (c1_schedule_sound c1Sched ["D1"] ["S1", "S2"] c1Arr (by decide)
     (by decide) (by decide) (by decide) (by decide)).1,
   (c1_schedule_sound c1Sched ["D1"] ["S1", "S2"] c1Arr (by decide)
     (by decide) (by decide) (by decide) (by decide)).2⟩

theorem scene_works_overrun (s : Scheduler) {scene : String} {sc : Scene}
    (hreg : dlookup s.scenes scene = some sc)
    (hact : sc.all_actors ≠ [])
    (hint : 0 < s.calendar.interval)
    {day : String} {slots : List ℚ} {p : ℕ} {t : ℚ}
    (harith : arithSlotsB slots s.calendar.interval = true)
    (hmatch : SceneChartsMatch s sc day slots)
    (hget : slots.get? p = some t)
    (hover : slots.length < p + sc.length) :
    s.scene_works scene day t 9000000 = some false := by
  obtain ⟨b, hb⟩ := scene_works_total s day t 9000000 hreg
  rcases b with _ | _
  · exact hb
  · exfalso
    have hchar := (scene_works_true_char s day t 9000000 hreg).mp hb
    obtain ⟨n0, hn0⟩ := List.exists_mem_of_ne_nil _ hact
    obtain ⟨a, ha, hav⟩ := hchar.2 n0 hn0
    have hplen : p < slots.length := by
      rcases List.get?_eq_some.mp hget with ⟨hlt, _⟩
      exact hlt
    set k := slots.length - p with hk
    have hklen : k < sc.length := by omega
    have hmemτ : t + s.calendar.interval * (k : ℚ) ∈
        s.generate_times t (t + (sc.length : ℚ) * s.calendar.interval) := by
      rw [generate_times_eq s t sc.length hint]
      exact List.mem_map.mpr ⟨k, List.mem_range.mpr hklen, rfl⟩
    have hτ := hav _ hmemτ
    obtain ⟨a2, ha2, inner, hinner, hkeys⟩ := hmatch n0 hn0
    rw [ha] at ha2
    cases Option.some_inj.mp ha2
    have hτ' : dlookup inner (t + s.calendar.interval * (k : ℚ))
        = some true := by
      simp only [dlookup2, hinner] at hτ
      exact hτ
    have hτslots : t + s.calendar.interval * (k : ℚ) ∈ slots :=
      (innerKeysMatch_isSome hkeys _).mp (by rw [hτ']; rfl)
    obtain ⟨q, hqget⟩ := List.mem_iff_get?.mp hτslots
    have harel := arithSlotsB_get harith hget hqget
    have hqlen : q < slots.length := by
      rcases List.get?_eq_some.mp hqget with ⟨hlt, _⟩
      exact hlt
    have hx2 : ((k : ℚ) + (p : ℚ)) * s.calendar.interval
        = (q : ℚ) * s.calendar.interval := by
      rw [add_mul]
      linarith
    have hx3 : (k : ℚ) + (p : ℚ) = (q : ℚ) :=
      mul_right_cancel₀ (ne_of_gt hint) hx2
    have hqe : k + p = q := by exact_mod_cast hx3
    omega

/-- Claim C3 (amended): for a scene requiring at least one participant
whose ledgers mirror the grid on the relevant days, a start position whose
occupied slots would run past the end of the day's slot list makes the
feasibility check false (tasks never span day boundaries), and if the
scene's duration exceeds the slot count of every considered day, then
whenever `schedule` returns at all for a task list containing the scene, it
returns the no-schedule signal.  A scene with no required participants
escapes both guarantees (see the counterexample). -/
theorem c3_overrun (s : Scheduler) {bad : String} {sc : Scene}
    (hreg : dlookup s.scenes bad = some sc)
    (hact : sc.all_actors ≠ [])
    (hint : 0 < s.calendar.interval) :
    (∀ day slots p t,
      dlookup s.calendar.day_time_chart day = some slots →
      arithSlotsB slots s.calendar.interval = true →
      SceneChartsMatch s sc day slots →
      slots.get? p = some t →
      slots.length < p + sc.length →
      s.scene_works bad day t 9000000 = some false) ∧
    (∀ days scenes r,
      bad ∈ scenes →
      (∀ d ∈ days, ∃ slots,
        dlookup s.calendar.day_time_chart d = some slots ∧
        arithSlotsB slots s.calendar.interval = true ∧
        SceneChartsMatch s sc d slots ∧
        slots.length < sc.length) →
      s.schedule days scenes = some r → r = none) := by
  constructor
  · intro day slots p t _ harith hmatch hget hover
    exact scene_works_overrun s hreg hact hint harith hmatch hget hover
  · intro days scenes r hbad hdays hrun
    unfold Scheduler.schedule at hrun
    rcases hbt : buildTimeblocks s.calendar days with _ | tbs
    · simp [hbt] at hrun
    · simp only [hbt] at hrun
      rcases hsolve : s.schedule_solve tbs scenes.length scenes
          (List.replicate tbs.length false) [] with _ | res
      · simp [hsolve] at hrun
      · obtain ⟨bb, schedF, arrF⟩ := res
        simp only [hsolve] at hrun
        rcases bb with _ | _
        · simp at hrun
          exact hrun.symm
        · exfalso
          obtain ⟨sc', pp, day, t, hreg', htb, hworks⟩ :=
            schedule_solve_works s tbs scenes.length scenes _ _ _ _
              hsolve bad hbad
          rw [hreg] at hreg'
          cases Option.some_inj.mp hreg'
          obtain ⟨hdmem, slots0, p0, hchart0, hget0⟩ :=
            buildTimeblocks_entry s.calendar days tbs hbt _ _ _ htb
          obtain ⟨slots, hchart, harith, hmatch, hlen⟩ := hdays day hdmem
          rw [hchart0] at hchart
          cases Option.some_inj.mp hchart
          have hfalse := scene_works_overrun s hreg hact hint harith hmatch
            hget0 (by omega)
          rw [hworks] at hfalse
          exact absurd (Option.some_inj.mp hfalse) (by simp)

/-- Claim C3 fails on the code as stated: an actor-less scene of duration
three timeblocks passes the feasibility check at the first slot of a
two-slot day (its occupied slots run past the end of the day), and
`schedule` returns an assignment for a task list containing it even though
its duration exceeds the slot count of every considered day. -/
theorem c3_counterexample :
    dlookup cx3Sched.calendar.day_time_chart "D1" = some [1, 3/2] ∧
    dlookup cx3Sched.calendar.day_time_chart "D2" = some [1, 3/2] ∧
    cx3Sched.scene_works "S" "D1" 1 9000000 = some true ∧
    cx3Sched.schedule ["D1", "D2"] ["S"]
      = some (some [("S", ArrVal.tb "D1" 1)]) := by
  decide

/-- Witness for the amended C3 at a concrete scheduler. -/
theorem c3_witness :
    w3Sched.scene_works "S" "D1" 1 9000000 = some false ∧
    ∀ r, w3Sched.schedule ["D1"] ["S"] = some r → r = none := by
  have hmatch : SceneChartsMatch w3Sched (Scene.init "S" 3 ["A"] []).1 "D1"
      [1, 3/2] := by
    intro n hn
    have hn' : n = "A" := by simpa [Scene.init] using hn
    subst hn'
    exact ⟨Actor.create "A" [("D1", [1, 3/2])], by decide,
      [(1, true), (3/2, true)], by decide, by decide⟩
  have h := @c3_overrun w3Sched "S" (Scene.init "S" 3 ["A"] []).1
    (by decide) (by decide) (by decide)
  refine ⟨?_, ?_⟩
  · exact h.1 "D1" [1, 3/2] 0 1 (by decide) (by decide) hmatch (by decide)
      (by decide)
  · intro r hr
    refine h.2 ["D1"] ["S"] r (by decide) ?_ hr
    intro d hd
    have hd' : d = "D1" := by simpa using hd
    subst hd'
    exact ⟨[1, 3/2], by decide, by decide, hmatch, by decide⟩
